import Mathlib

/-!
Verification of the subnet IPAM engine of the k8s-ovn repository against its
specification.  The Go code of `pkg/cluster/master.go` (the `SubnetAllocator`
with `NewSubnetAllocator`, `GetNetwork`, `ReleaseNetwork`) and of the cluster
subnet configuration parser (`parseClusterSubnetEntries`, `cidrsOverlap`) is
shallowly embedded below: IPv4 addresses become natural numbers below `2 ^ 32`,
Go maps become association lists keyed by the canonical CIDR strings the code
uses, and fallible operations return `Except String`.
-/

namespace KOvn

/-! ## Decimal formatting (Go `strconv`, `net.IP.String`)

Go renders every number appearing in a CIDR string in decimal without leading
zeros.  The allocator's map keys are such strings, so their injectivity is
needed to reason about map lookups. -/

/-- The decimal digit character Go produces: `'0' + d`. -/
def digitChar (d : Nat) : Char := Char.ofNat (48 + d)

/-- Structural helper for `decDigits`; the first argument is fuel, always
called with at least the number being printed. -/
def decDigitsAux : Nat → Nat → List Char
  | 0, n => [digitChar n]
  | fuel + 1, n =>
    if n < 10 then [digitChar n]
    else decDigitsAux fuel (n / 10) ++ [digitChar (n % 10)]

/-- The decimal digit list of a natural number, most significant first,
without leading zeros — exactly Go's integer formatting. -/
def decDigits (n : Nat) : List Char := decDigitsAux n n

theorem decDigitsAux_congr (n : Nat) : ∀ f1 f2, n ≤ f1 → n ≤ f2 →
    decDigitsAux f1 n = decDigitsAux f2 n := by
  induction n using Nat.strong_induction_on with
  | _ n ih =>
    intro f1 f2 h1 h2
    match f1, f2 with
    | 0, 0 => rfl
    | 0, b + 1 =>
      have hn : n = 0 := by omega
      subst hn
      simp [decDigitsAux]
    | a + 1, 0 =>
      have hn : n = 0 := by omega
      subst hn
      simp [decDigitsAux]
    | a + 1, b + 1 =>
      by_cases h : n < 10
      · simp [decDigitsAux, h]
      · simp only [decDigitsAux, if_neg h]
        congr 1
        exact ih (n / 10) (Nat.div_lt_self (by omega) (by omega)) a b
          (by omega) (by omega)

/-- The recurrence `decDigits` satisfies (Go's division-based digit loop). -/
theorem decDigits_eq (n : Nat) :
    decDigits n = if n < 10 then [digitChar n]
      else decDigits (n / 10) ++ [digitChar (n % 10)] := by
  by_cases h : n < 10
  · rw [if_pos h]
    match n, h with
    | 0, _ => rfl
    | (m + 1), h => simp [decDigits, decDigitsAux, h]
  · rw [if_neg h]
    obtain ⟨m, hm⟩ : ∃ m, n = m + 1 := ⟨n - 1, by omega⟩
    subst hm
    show decDigitsAux (m + 1) (m + 1) = _
    show (if m + 1 < 10 then [digitChar (m + 1)]
      else decDigitsAux m ((m + 1) / 10) ++ [digitChar ((m + 1) % 10)]) = _
    rw [if_neg h]
    congr 1
    exact decDigitsAux_congr ((m + 1) / 10) m ((m + 1) / 10) (by omega) (Nat.le_refl _)

/-- Go's decimal rendering of a natural number. -/
def decStr (n : Nat) : String := String.mk (decDigits n)

theorem decDigits_ne_nil (n : Nat) : decDigits n ≠ [] := by
  rw [decDigits_eq]
  split
  · simp
  · simp

theorem digitChar_toNat (d : Nat) (h : d < 10) : (digitChar d).toNat = 48 + d := by
  interval_cases d <;> decide

theorem decDigits_mem_range (n : Nat) :
    ∀ c ∈ decDigits n, 48 ≤ c.toNat ∧ c.toNat ≤ 57 := by
  induction n using Nat.strong_induction_on with
  | _ n ih =>
    rw [decDigits_eq]
    split
    · next h =>
      intro c hc
      simp only [List.mem_singleton] at hc
      subst hc
      rw [digitChar_toNat n h]
      omega
    · next h =>
      intro c hc
      rw [List.mem_append] at hc
      rcases hc with hc | hc
      · exact ih (n / 10) (Nat.div_lt_self (by omega) (by omega)) c hc
      · simp only [List.mem_singleton] at hc
        subst hc
        rw [digitChar_toNat (n % 10) (Nat.mod_lt n (by omega))]
        omega

/-- The value of a digit list, used to invert `decDigits`. -/
def digitsVal (l : List Char) : Nat :=
  l.foldl (fun acc c => acc * 10 + (c.toNat - 48)) 0

theorem digitsVal_aux (l : List Char) (a : Nat) :
    l.foldl (fun acc c => acc * 10 + (c.toNat - 48)) a =
      a * 10 ^ l.length + digitsVal l := by
  induction l generalizing a with
  | nil => simp [digitsVal]
  | cons c t ih =>
    have h1 : digitsVal (c :: t) = (c.toNat - 48) * 10 ^ t.length + digitsVal t := by
      unfold digitsVal
      rw [List.foldl_cons, ih]
      ring_nf
      rfl
    rw [List.foldl_cons, ih, h1, List.length_cons]
    ring

theorem digitsVal_append (l₁ l₂ : List Char) :
    digitsVal (l₁ ++ l₂) = digitsVal l₁ * 10 ^ l₂.length + digitsVal l₂ := by
  simp only [digitsVal, List.foldl_append]
  rw [digitsVal_aux l₂ (List.foldl _ 0 l₁)]
  rfl

theorem digitsVal_decDigits (n : Nat) : digitsVal (decDigits n) = n := by
  induction n using Nat.strong_induction_on with
  | _ n ih =>
    rw [decDigits_eq]
    split
    · next h =>
      simp [digitsVal, digitChar_toNat n h]
    · next h =>
      rw [digitsVal_append, ih (n / 10) (Nat.div_lt_self (by omega) (by omega))]
      simp [digitsVal, digitChar_toNat (n % 10) (Nat.mod_lt n (by omega))]
      omega

theorem decDigits_inj {m n : Nat} (h : decDigits m = decDigits n) : m = n := by
  have := digitsVal_decDigits m
  rw [h, digitsVal_decDigits] at this
  exact this.symm

theorem decStr_inj {m n : Nat} (h : decStr m = decStr n) : m = n := by
  apply decDigits_inj
  have : (decStr m).data = (decStr n).data := by rw [h]
  exact this

/-- Splitting a character list at a separator absent from both leading parts is
unambiguous. -/
theorem append_sep_inj (c : Char) :
    ∀ l₁ l₂ r₁ r₂ : List Char, c ∉ l₁ → c ∉ l₂ →
      l₁ ++ c :: r₁ = l₂ ++ c :: r₂ → l₁ = l₂ ∧ r₁ = r₂ := by
  intro l₁
  induction l₁ with
  | nil =>
    intro l₂ r₁ r₂ _ h₂ h
    cases l₂ with
    | nil => simpa using h
    | cons d t =>
      simp only [List.nil_append, List.cons_append, List.cons.injEq] at h
      exact absurd (h.1 ▸ List.mem_cons_self d t) h₂
  | cons d t ih =>
    intro l₂ r₁ r₂ h₁ h₂ h
    cases l₂ with
    | nil =>
      simp only [List.cons_append, List.nil_append, List.cons.injEq] at h
      exact absurd (h.1.symm ▸ List.mem_cons_self d t) h₁
    | cons e s =>
      simp only [List.cons_append, List.cons.injEq] at h
      have h₁' : c ∉ t := fun hm => h₁ (List.mem_cons_of_mem d hm)
      have h₂' : c ∉ s := fun hm => h₂ (List.mem_cons_of_mem e hm)
      obtain ⟨ht, hr⟩ := ih s r₁ r₂ h₁' h₂' h.2
      exact ⟨by rw [h.1, ht], hr⟩

/-! ## IPv4 model

Go's `net` package represents an IPv4 address as four big-endian bytes; the
code converts to and from `uint32` with `IPToUint32`/`Uint32ToIP`.  Here an
address is a natural number below `2 ^ 32`. -/

/-- The dotted-quad rendering of a 32-bit address, byte by byte
(Go `net.IP.String` after `Uint32ToIP`). -/
def ipDotted (u : Nat) : String :=
  decStr ((u >>> 24) % 256) ++ "." ++ decStr ((u >>> 16) % 256) ++ "." ++
    decStr ((u >>> 8) % 256) ++ "." ++ decStr (u % 256)

/-- A parsed CIDR network — `net.IPNet` restricted to IPv4: the (masked)
network address and the mask size `p` of `net.CIDRMask(p, 32)`. -/
structure IPNet where
  ip : Nat
  maskSize : Nat
deriving DecidableEq

/-- `(*net.IPNet).String()`: the canonical CIDR text used as the allocator's
map key. -/
def ipnetString (n : IPNet) : String := ipDotted n.ip ++ "/" ++ decStr n.maskSize

/-- The `net.CIDRMask(p, 32)` mask as a 32-bit number: `p` leading one bits. -/
def cidrMask (p : Nat) : Nat := (2 ^ p - 1) * 2 ^ (32 - p)

/-- `(*net.IPNet).Contains` on IPv4: mask the queried address with the
network's mask and compare with the network address. -/
def ipnetContains (n : IPNet) (ip : Nat) : Bool :=
  ip &&& cidrMask n.maskSize == n.ip

theorem dot_not_mem_decDigits (n : Nat) : ('.' : Char) ∉ decDigits n := by
  intro h
  have h2 := decDigits_mem_range n '.' h
  have h3 : ('.' : Char).toNat = 46 := rfl
  omega

theorem ipDotted_data (u : Nat) :
    (ipDotted u).data =
      decDigits ((u >>> 24) % 256) ++ '.' ::
        (decDigits ((u >>> 16) % 256) ++ '.' ::
          (decDigits ((u >>> 8) % 256) ++ '.' :: decDigits (u % 256))) := by
  simp [ipDotted, decStr, String.data_append, List.append_assoc]

theorem ipDotted_mem_range (u : Nat) :
    ∀ c ∈ (ipDotted u).data, c.toNat = 46 ∨ (48 ≤ c.toNat ∧ c.toNat ≤ 57) := by
  intro c hc
  rw [ipDotted_data] at hc
  have h46 : ('.' : Char).toNat = 46 := rfl
  simp only [List.mem_append, List.mem_cons] at hc
  rcases hc with h | h | h
  · exact Or.inr (decDigits_mem_range _ c h)
  · rw [h]; exact Or.inl h46
  rcases h with h | h | h
  · exact Or.inr (decDigits_mem_range _ c h)
  · rw [h]; exact Or.inl h46
  rcases h with h | h | h
  · exact Or.inr (decDigits_mem_range _ c h)
  · rw [h]; exact Or.inl h46
  · exact Or.inr (decDigits_mem_range _ c h)

theorem u32_octet_ext {u v : Nat} (hu : u < 4294967296) (hv : v < 4294967296)
    (h1 : u / 16777216 % 256 = v / 16777216 % 256)
    (h2 : u / 65536 % 256 = v / 65536 % 256)
    (h3 : u / 256 % 256 = v / 256 % 256)
    (h4 : u % 256 = v % 256) : u = v := by omega

theorem ipDotted_inj {u v : Nat} (hu : u < 2 ^ 32) (hv : v < 2 ^ 32)
    (h : ipDotted u = ipDotted v) : u = v := by
  have hd : (ipDotted u).data = (ipDotted v).data := by rw [h]
  rw [ipDotted_data, ipDotted_data] at hd
  obtain ⟨e1, hd⟩ := append_sep_inj '.' _ _ _ _
    (dot_not_mem_decDigits _) (dot_not_mem_decDigits _) hd
  obtain ⟨e2, hd⟩ := append_sep_inj '.' _ _ _ _
    (dot_not_mem_decDigits _) (dot_not_mem_decDigits _) hd
  obtain ⟨e3, e4⟩ := append_sep_inj '.' _ _ _ _
    (dot_not_mem_decDigits _) (dot_not_mem_decDigits _) hd
  have q1 := decDigits_inj e1
  have q2 := decDigits_inj e2
  have q3 := decDigits_inj e3
  have q4 := decDigits_inj e4
  simp only [Nat.shiftRight_eq_div_pow] at q1 q2 q3
  have p24 : (2 : Nat) ^ 24 = 16777216 := by norm_num
  have p16 : (2 : Nat) ^ 16 = 65536 := by norm_num
  have p8 : (2 : Nat) ^ 8 = 256 := by norm_num
  rw [p24] at q1
  rw [p16] at q2
  rw [p8] at q3
  have h32 : (2 : Nat) ^ 32 = 4294967296 := by norm_num
  exact u32_octet_ext (h32 ▸ hu) (h32 ▸ hv) q1 q2 q3 q4

theorem slash_not_mem_ipDotted (u : Nat) : ('/' : Char) ∉ (ipDotted u).data := by
  intro h
  have h2 := ipDotted_mem_range u '/' h
  have h3 : ('/' : Char).toNat = 47 := rfl
  omega

theorem ipnetString_inj {a b : IPNet} (ha : a.ip < 2 ^ 32) (hb : b.ip < 2 ^ 32)
    (h : ipnetString a = ipnetString b) : a = b := by
  have hd : (ipnetString a).data = (ipnetString b).data := by rw [h]
  have hsl : ("/" : String).data = ['/'] := rfl
  simp only [ipnetString, String.data_append, hsl, List.append_assoc,
    List.singleton_append] at hd
  obtain ⟨e1, e2⟩ := append_sep_inj '/' _ _ _ _
    (slash_not_mem_ipDotted _) (slash_not_mem_ipDotted _) hd
  have hip : a.ip = b.ip := by
    apply ipDotted_inj ha hb
    show String.mk (ipDotted a.ip).data = String.mk (ipDotted b.ip).data
    rw [e1]
  have hms : a.maskSize = b.maskSize := decDigits_inj e2
  cases a
  cases b
  simp_all

instance {ε α : Type} [DecidableEq ε] [DecidableEq α] : DecidableEq (Except ε α) :=
  fun x y =>
    match x, y with
    | Except.error a, Except.error b =>
      if h : a = b then isTrue (h ▸ rfl)
      else isFalse (fun he => h (by injection he))
    | Except.ok a, Except.ok b =>
      if h : a = b then isTrue (h ▸ rfl)
      else isFalse (fun he => h (by injection he))
    | Except.error _, Except.ok _ => isFalse (fun he => by injection he)
    | Except.ok _, Except.error _ => isFalse (fun he => by injection he)

/-! ## Go maps

`SubnetAllocator.allocMap` is a Go `map[string]bool`; reading a missing key
yields `false`, and assignment inserts or overwrites.  The embedding is an
association list (insertion order kept, which Go's semantics never observes
through this program). -/

/-- Go map read `m[k]` with the zero value `false` for missing keys. -/
def mapGet : List (String × Bool) → String → Bool
  | [], _ => false
  | (k', v') :: rest, k => if k' = k then v' else mapGet rest k

/-- Go map assignment `m[k] = v`. -/
def mapSet : List (String × Bool) → String → Bool → List (String × Bool)
  | [], k, v => [(k, v)]
  | (k', v') :: rest, k, v =>
    if k' = k then (k', v) :: rest else (k', v') :: mapSet rest k v

/-- The keys present in the map. -/
def mapKeys (m : List (String × Bool)) : List String := m.map Prod.fst

theorem mapGet_mapSet_self (m : List (String × Bool)) (k : String) (v : Bool) :
    mapGet (mapSet m k v) k = v := by
  induction m with
  | nil => simp [mapGet, mapSet]
  | cons hd t ih =>
    obtain ⟨k', v'⟩ := hd
    by_cases h : k' = k
    · simp [mapGet, mapSet, h]
    · simp [mapGet, mapSet, h, ih]

theorem mapGet_mapSet_ne (m : List (String × Bool)) {k k' : String} (v : Bool)
    (h : k' ≠ k) : mapGet (mapSet m k v) k' = mapGet m k' := by
  have hne : ¬(k = k') := fun he => h he.symm
  induction m with
  | nil => simp [mapGet, mapSet, hne]
  | cons hd t ih =>
    obtain ⟨k₀, v₀⟩ := hd
    by_cases h0 : k₀ = k
    · subst h0
      have hne2 : ¬(k₀ = k') := fun he => h he.symm
      simp [mapGet, mapSet, hne2]
    · by_cases h1 : k₀ = k'
      · simp [mapGet, mapSet, h0, h1, h]
      · simp [mapGet, mapSet, h0, h1, ih]

theorem mapSet_of_not_mem (m : List (String × Bool)) (k : String) (v : Bool)
    (h : k ∉ mapKeys m) : mapSet m k v = m ++ [(k, v)] := by
  induction m with
  | nil => simp [mapSet]
  | cons hd t ih =>
    obtain ⟨k₀, v₀⟩ := hd
    simp only [mapKeys, List.map_cons, List.mem_cons] at h
    push_neg at h
    have hne : ¬(k₀ = k) := fun he => h.1 he.symm
    simp only [mapSet, if_neg hne, List.cons_append, List.cons.injEq, true_and]
    exact ih h.2

theorem mapKeys_mapSet_of_mem (m : List (String × Bool)) (k : String) (v : Bool)
    (h : k ∈ mapKeys m) : mapKeys (mapSet m k v) = mapKeys m := by
  induction m with
  | nil => simp [mapKeys] at h
  | cons hd t ih =>
    obtain ⟨k₀, v₀⟩ := hd
    by_cases h0 : k₀ = k
    · simp [mapSet, if_pos h0, mapKeys]
    · simp only [mapKeys, List.map_cons, List.mem_cons] at h
      rcases h with h | h
      · exact absurd h.symm h0
      · simp only [mapSet, if_neg h0, mapKeys, List.map_cons, List.cons.injEq, true_and]
        exact ih h

theorem mem_mapKeys_of_mapGet_true (m : List (String × Bool)) (k : String)
    (h : mapGet m k = true) : k ∈ mapKeys m := by
  induction m with
  | nil => simp [mapGet] at h
  | cons hd t ih =>
    obtain ⟨k₀, v₀⟩ := hd
    by_cases h0 : k₀ = k
    · simp [mapKeys, h0.symm]
    · simp only [mapGet, if_neg h0] at h
      simp only [mapKeys, List.map_cons, List.mem_cons]
      exact Or.inr (ih h)

/-! ## Bit-arithmetic helpers -/

theorem and_shiftLeft_comm (x y j : Nat) :
    x &&& (y <<< j) = ((x >>> j) &&& y) <<< j := by
  apply Nat.eq_of_testBit_eq
  intro i
  simp only [Nat.testBit_land, Nat.testBit_shiftLeft, Nat.testBit_shiftRight]
  by_cases h : j ≤ i
  · have hji : j + (i - j) = i := by omega
    simp [ge_iff_le, h, hji]
  · simp [ge_iff_le, h]

theorem and_mul_pow_mask (x k j : Nat) :
    x &&& ((2 ^ k - 1) * 2 ^ j) = x / 2 ^ j % 2 ^ k * 2 ^ j := by
  have h1 : (2 ^ k - 1) * 2 ^ j = (2 ^ k - 1) <<< j := (Nat.shiftLeft_eq _ _).symm
  rw [h1, and_shiftLeft_comm, Nat.and_pow_two_sub_one_eq_mod,
    Nat.shiftLeft_eq, Nat.shiftRight_eq_div_pow]

theorem or_eq_add (x y j : Nat) (hx : x % 2 ^ j = 0) (hy : y < 2 ^ j) :
    x ||| y = x + y := by
  obtain ⟨c, hc⟩ : 2 ^ j ∣ x := Nat.dvd_of_mod_eq_zero hx
  subst hc
  exact (Nat.mul_add_lt_is_or hy c).symm

/-! ## `net.ParseCIDR`

The Go standard library's CIDR parser, as the repository's Go version defines
it, restricted to IPv4 (the spec declares IPv6 out of scope, and every pool
and subnet this program handles is IPv4): `dtoi` parses a decimal prefix
capped at `big = 0xFFFFFF`, `parseIPv4` reads four dotted decimal bytes, and
`ParseCIDR` splits at the first `'/'` and masks the address. -/

/-- Go `net.dtoi` main loop: consume decimal digits, tracking the value and
the count of consumed characters; overflow at `big = 0xFFFFFF` aborts. -/
def dtoiLoop : List Char → Nat → Nat → Nat × Nat × Bool
  | [], n, i => (n, i, true)
  | c :: rest, n, i =>
    if 48 ≤ c.toNat ∧ c.toNat ≤ 57 then
      if n * 10 + (c.toNat - 48) ≥ 16777215 then (16777215, i, false)
      else dtoiLoop rest (n * 10 + (c.toNat - 48)) (i + 1)
    else (n, i, true)

/-- Go `net.dtoi`: parse a decimal prefix of `s`; fails when no digit was
consumed or on overflow. -/
def dtoi (s : List Char) : Nat × Nat × Bool :=
  match dtoiLoop s 0 0 with
  | (n, i, ok) => if ok ∧ i = 0 then (0, 0, false) else (n, i, ok)

/-- One field of `parseIPv4`: a decimal byte parsed by `dtoi`, rejected when
the parse failed or the value exceeds `0xFF`; returns the rest of the input. -/
def parseIPv4Field (s : List Char) : Option (Nat × List Char) :=
  match dtoi s with
  | (n, c, ok) => if ok = true ∧ n ≤ 255 then some (n, s.drop c) else none

/-- The `i > 0` step of `parseIPv4`'s loop: require and consume a `'.'`. -/
def expectDot : List Char → Option (List Char)
  | '.' :: rest => some rest
  | _ => none

/-- Go `net.parseIPv4`, returning the address as its 32-bit value
(`IPToUint32` of the four bytes). -/
def parseIPv4 (s : List Char) : Option Nat := do
  let (p0, s) ← parseIPv4Field s
  let s ← expectDot s
  let (p1, s) ← parseIPv4Field s
  let s ← expectDot s
  let (p2, s) ← parseIPv4Field s
  let s ← expectDot s
  let (p3, s) ← parseIPv4Field s
  if s = [] then some (p0 * 16777216 + p1 * 65536 + p2 * 256 + p3) else none

/-- Go `net.ParseCIDR` on IPv4: split at the first `'/'`, parse the address
and the decimal mask size (`0 ≤ n ≤ 32`, consuming the whole mask text), and
return the unmasked address together with the masked `IPNet`. -/
def ParseCIDR (s : String) : Option (Nat × IPNet) :=
  let l := s.data
  if ('/' : Char) ∈ l then
    let addr := l.takeWhile (fun c => c ≠ '/')
    let mask := (l.dropWhile (fun c => c ≠ '/')).tail
    match parseIPv4 addr with
    | none => none
    | some ip =>
      match dtoi mask with
      | (n, i, ok) =>
        if ok = true ∧ i = mask.length ∧ n ≤ 32 then
          some (ip, ⟨ip &&& cidrMask n, n⟩)
        else none
  else none

theorem parseIPv4Field_le (s : List Char) (n : Nat) (s' : List Char)
    (h : parseIPv4Field s = some (n, s')) : n ≤ 255 := by
  unfold parseIPv4Field at h
  split at h
  split at h
  · next hc =>
    cases h
    exact hc.2
  · cases h

theorem parseIPv4_lt (s : List Char) (u : Nat) (h : parseIPv4 s = some u) :
    u < 2 ^ 32 := by
  unfold parseIPv4 at h
  simp only [bind, Option.bind_eq_some] at h
  obtain ⟨⟨p0, s0⟩, h0, ⟨s1, _, ⟨⟨p1, s2⟩, h2, ⟨s3, _, ⟨⟨p2, s4⟩, h4,
    ⟨s5, _, ⟨⟨p3, s6⟩, h6, hfin⟩⟩⟩⟩⟩⟩⟩ := h
  have b0 := parseIPv4Field_le _ _ _ h0
  have b1 := parseIPv4Field_le _ _ _ h2
  have b2 := parseIPv4Field_le _ _ _ h4
  have b3 := parseIPv4Field_le _ _ _ h6
  by_cases he : s6 = []
  · rw [if_pos he] at hfin
    cases hfin
    have : (2 : Nat) ^ 32 = 4294967296 := by norm_num
    omega
  · rw [if_neg he] at hfin
    cases hfin

theorem ParseCIDR_maskSize_le (s : String) (ip : Nat) (net : IPNet)
    (h : ParseCIDR s = some (ip, net)) : net.maskSize ≤ 32 := by
  simp only [ParseCIDR] at h
  split at h
  · split at h
    · cases h
    · split at h
      · next hc =>
        cases h
        exact hc.2.2
      · cases h
  · cases h

theorem masked_ip_facts (ip p : Nat) (hp : p ≤ 32) :
    ip &&& cidrMask p < 2 ^ 32 ∧ (ip &&& cidrMask p) % 2 ^ (32 - p) = 0 := by
  rw [cidrMask, and_mul_pow_mask]
  constructor
  · have h1 : ip / 2 ^ (32 - p) % 2 ^ p < 2 ^ p := Nat.mod_lt _ (Nat.pos_pow_of_pos _ (by omega))
    calc ip / 2 ^ (32 - p) % 2 ^ p * 2 ^ (32 - p)
        < 2 ^ p * 2 ^ (32 - p) := by
          exact Nat.mul_lt_mul_of_lt_of_le h1 (Nat.le_refl _) (Nat.pos_pow_of_pos _ (by omega))
      _ = 2 ^ 32 := by rw [← Nat.pow_add]; congr 1; omega
  · exact Nat.mul_mod_left _ _

theorem ParseCIDR_ip_facts (s : String) (ip : Nat) (net : IPNet)
    (h : ParseCIDR s = some (ip, net)) :
    net.ip < 2 ^ 32 ∧ net.ip % 2 ^ (32 - net.maskSize) = 0 := by
  simp only [ParseCIDR] at h
  split at h
  · split at h
    · cases h
    · split at h
      · next hc =>
        cases h
        exact masked_ip_facts _ _ hc.2.2
      · cases h
  · cases h

/-! ## The subnet allocator (`pkg/cluster/master.go`) -/

/-- `SubnetAllocator`: pool network, host-bit count, rotation parameters,
round-robin cursor `next`, and the allocation map.  The Go struct's mutex
serializes `GetNetwork`/`ReleaseNetwork`; each embedded operation below is one
whole lock-protected critical section, executed atomically. -/
structure SubnetAllocator where
  network : IPNet
  hostBits : Nat
  leftShift : Nat
  leftMask : Nat
  rightShift : Nat
  rightMask : Nat
  next : Nat
  allocMap : List (String × Bool)
deriving DecidableEq

/-- The rotation parameters `(leftShift, leftMask, rightShift, rightMask)`
computed by `NewSubnetAllocator` (master.go lines 115–127).  All values agree
with Go's `uint32` results: for `netMaskSize = 0` Go's `1<<32 - 1` also yields
`0xFFFFFFFF`. -/
def rotationParams (netMaskSize hostBits : Nat) : Nat × Nat × Nat × Nat :=
  let subnetBits := 32 - netMaskSize - hostBits
  if hostBits % 8 ≠ 0 ∧ (hostBits - 1) / 8 ≠ (hostBits + subnetBits - 1) / 8 then
    let leftShift := 8 - hostBits % 8
    (leftShift, 2 ^ (32 - netMaskSize) - 1, subnetBits - leftShift,
      (2 ^ leftShift - 1) * 2 ^ hostBits)
  else
    (0, 4294967295, 0, 0)

/-- One iteration of `NewSubnetAllocator`'s seeding loop over the `inUse`
strings: parse the entry (skipping it with only a printed warning when it
does not parse), skip it when it does not belong to the pool, otherwise
record its canonical string as in-use. -/
def seedEntry (netIP : IPNet) (amap : List (String × Bool)) (netStr : String) :
    List (String × Bool) :=
  match ParseCIDR netStr with
  | none => amap
  | some (_, nIp) =>
    if ipnetContains netIP nIp.ip then mapSet amap (ipnetString nIp) true
    else amap

/-- Does the seeding loop record this entry?  (It does exactly when the
entry parses and its masked address belongs to the pool.) -/
def seedValid (netIP : IPNet) (netStr : String) : Bool :=
  match ParseCIDR netStr with
  | none => false
  | some (_, nIp) => ipnetContains netIP nIp.ip

/-- `NewSubnetAllocator(network, hostBits, inUse)`: parse the pool CIDR,
validate the host-bit count, compute the rotation parameters and seed the
allocation map from the `inUse` strings. -/
def NewSubnetAllocator (network : String) (hostBits : Nat) (inUse : List String) :
    Except String SubnetAllocator :=
  match ParseCIDR network with
  | none => Except.error ("Failed to parse network address: \"" ++ network ++ "\"")
  | some (_, netIP) =>
    if hostBits = 0 then
      Except.error "Host capacity cannot be zero."
    else if hostBits > 32 - netIP.maskSize then
      Except.error "Subnet capacity cannot be larger than number of networks available."
    else
      match rotationParams netIP.maskSize hostBits with
      | (leftShift, leftMask, rightShift, rightMask) =>
        let amap := inUse.foldl (seedEntry netIP) []
        Except.ok ⟨netIP, hostBits, leftShift, leftMask, rightShift, rightMask, 0, amap⟩

/-- `numSubnetBits` as recomputed inside `GetNetwork` from the stored fields. -/
def numSubnetBits (sna : SubnetAllocator) : Nat :=
  32 - sna.network.maskSize - sna.hostBits

/-- `numSubnets = 1 << numSubnetBits`. -/
def numSubnets (sna : SubnetAllocator) : Nat := 2 ^ numSubnetBits sna

/-- The candidate address for subnet number `n`: `GetNetwork`'s
`baseipu | ((shifted << leftShift) & leftMask) | ((shifted >> rightShift) & rightMask)`
in `uint32` arithmetic. -/
def genIpu (sna : SubnetAllocator) (n : Nat) : Nat :=
  let shifted := (n <<< sna.hostBits) % 2 ^ 32
  sna.network.ip ||| (((shifted <<< sna.leftShift) % 2 ^ 32) &&& sna.leftMask) |||
    ((shifted >>> sna.rightShift) &&& sna.rightMask)

/-- The candidate subnet for subnet number `n`: address `genIpu` with mask
`net.CIDRMask(numSubnetBits + netMaskSize, 32)`. -/
def genSubnet (sna : SubnetAllocator) (n : Nat) : IPNet :=
  ⟨genIpu sna n, numSubnetBits sna + sna.network.maskSize⟩

/-- `GetNetwork`: scan `numSubnets` candidate indices round-robin from the
cursor; claim the first whose canonical CIDR string is not marked in the map,
advance the cursor past it; when no candidate is free, reset the cursor to 0
and fail. -/
def GetNetwork (sna : SubnetAllocator) : Except String IPNet × SubnetAllocator :=
  match (List.range (numSubnets sna)).find? (fun i =>
      !(mapGet sna.allocMap
          (ipnetString (genSubnet sna ((i + sna.next) % numSubnets sna))))) with
  | some i =>
    let n := (i + sna.next) % numSubnets sna
    let gen := genSubnet sna n
    (Except.ok gen,
      { sna with allocMap := mapSet sna.allocMap (ipnetString gen) true, next := n + 1 })
  | none => (Except.error "No subnets available.", { sna with next := 0 })

/-- `ReleaseNetwork`: reject subnets outside the pool, reject subnets whose
canonical string is absent or already free, otherwise mark the entry free. -/
def ReleaseNetwork (sna : SubnetAllocator) (ipnet : IPNet) : Except String SubnetAllocator :=
  if !(ipnetContains sna.network ipnet.ip) then
    Except.error ("Provided subnet " ++ ipnetString ipnet ++
      " doesn't belong to the network " ++ ipnetString sna.network ++ ".")
  else if !(mapGet sna.allocMap (ipnetString ipnet)) then
    Except.error ("Provided subnet " ++ ipnetString ipnet ++ " is already available.")
  else
    Except.ok { sna with allocMap := mapSet sna.allocMap (ipnetString ipnet) false }

/-- Run `k` successive `GetNetwork` calls, collecting the successfully
returned subnets and threading the state. -/
def allocRun (sna : SubnetAllocator) : Nat → List IPNet × SubnetAllocator
  | 0 => ([], sna)
  | k + 1 =>
    match allocRun sna k with
    | (l, s) =>
      match GetNetwork s with
      | (Except.ok S, s') => (l ++ [S], s')
      | (Except.error _, s') => (l, s')

/-- The field invariant every allocator built by `NewSubnetAllocator`
satisfies (and `GetNetwork`/`ReleaseNetwork` preserve, as they never write the
immutable fields). -/
def WF (sna : SubnetAllocator) : Prop :=
  sna.network.maskSize ≤ 32 ∧
  1 ≤ sna.hostBits ∧
  sna.hostBits ≤ 32 - sna.network.maskSize ∧
  sna.network.ip < 2 ^ 32 ∧
  sna.network.ip % 2 ^ (32 - sna.network.maskSize) = 0 ∧
  (sna.leftShift, sna.leftMask, sna.rightShift, sna.rightMask) =
    rotationParams sna.network.maskSize sna.hostBits

instance (sna : SubnetAllocator) : Decidable (WF sna) := by
  unfold WF
  infer_instance

theorem NewSubnetAllocator_WF (network : String) (hostBits : Nat) (inUse : List String)
    (sna : SubnetAllocator) (h : NewSubnetAllocator network hostBits inUse = Except.ok sna) :
    WF sna ∧ sna.next = 0 ∧ sna.allocMap = inUse.foldl (seedEntry sna.network) [] := by
  unfold NewSubnetAllocator at h
  rcases hp : ParseCIDR network with _ | ⟨ip0, netIP⟩
  · rw [hp] at h; cases h
  · rw [hp] at h
    have hfacts := ParseCIDR_ip_facts network ip0 netIP hp
    have hms := ParseCIDR_maskSize_le network ip0 netIP hp
    dsimp only at h
    split at h
    · cases h
    · split at h
      · cases h
      · next h0 hgt =>
        rcases hr : rotationParams netIP.maskSize hostBits with ⟨ls, lm, rs, rm⟩
        rw [hr] at h
        dsimp only at h
        cases h
        unfold WF
        dsimp only
        refine ⟨⟨hms, by omega, by omega, hfacts.1, hfacts.2, hr.symm⟩, rfl, rfl⟩

/-! ## Cluster subnet configuration parsing (`cmd` main, `src/unnamed/part_001`) -/

/-- `ovncluster.CIDRNetworkEntry`: a pool CIDR plus the host subnet length
taken from the third slash-separated field (or the default 24). -/
structure CIDRNetworkEntry where
  CIDR : IPNet
  HostSubnetLength : Nat
deriving DecidableEq

/-- Go `strings.Split(s, sep)` for the one-character separators this program
uses (`"/"` and `","`), on the character list: split around every occurrence
of the separator; the empty string yields one empty part. -/
def splitOnChar (c : Char) : List Char → List (List Char)
  | [] => [[]]
  | d :: rest =>
    if d = c then [] :: splitOnChar c rest
    else
      match splitOnChar c rest with
      | [] => [[d]]
      | l :: ls => (d :: l) :: ls

/-- `strings.Split` on strings with a one-character separator. -/
def stringsSplit (s : String) (c : Char) : List String :=
  (splitOnChar c s.data).map String.mk

/-- `strconv.ParseUint(s, 10, 32)`: decimal digits only, value below `2^32`. -/
def ParseUint32 (s : String) : Option Nat :=
  if s.data ≠ [] ∧ s.data.all (fun c => 48 ≤ c.toNat ∧ c.toNat ≤ 57) then
    if digitsVal s.data < 4294967296 then some (digitsVal s.data) else none
  else none

/-- `cidrsOverlap`: does `cidr` contain the network address of any listed
entry, or any listed entry contain `cidr`'s network address? -/
def cidrsOverlap (cidr : IPNet) (cidrList : List CIDRNetworkEntry) : Bool :=
  cidrList.any (fun clusterEntry =>
    ipnetContains cidr clusterEntry.CIDR.ip || ipnetContains clusterEntry.CIDR cidr.ip)

/-- The loop body of `parseClusterSubnetEntries` for one comma-separated
entry: split on `/`; with three parts parse the host subnet length, with two
parts default it to 24 (backwards compatibility), otherwise reject; then
parse `parts[0]/parts[1]` as the CIDR. -/
def parseClusterSubnetEntry (clusterEntry : String) : Except String CIDRNetworkEntry :=
  let splitClusterEntry := stringsSplit clusterEntry '/'
  if splitClusterEntry.length = 3 then
    match ParseUint32 (splitClusterEntry.getD 2 "") with
    | none => Except.error ("strconv.ParseUint: parsing \"" ++
        splitClusterEntry.getD 2 "" ++ "\": invalid syntax")
    | some tmp =>
      match ParseCIDR (splitClusterEntry.getD 0 "" ++ "/" ++ splitClusterEntry.getD 1 "") with
      | none => Except.error ("invalid CIDR address: " ++ clusterEntry)
      | some (_, cidr) => Except.ok ⟨cidr, tmp⟩
  else if splitClusterEntry.length = 2 then
    match ParseCIDR (splitClusterEntry.getD 0 "" ++ "/" ++ splitClusterEntry.getD 1 "") with
    | none => Except.error ("invalid CIDR address: " ++ clusterEntry)
    | some (_, cidr) => Except.ok ⟨cidr, 24⟩
  else
    Except.error "cluster-cidr not formatted properly"

/-- The accumulating loop of `parseClusterSubnetEntries`: parse each entry,
reject it when its CIDR overlaps any already-parsed pool, else append it. -/
def parseClusterSubnetEntriesAux :
    List String → List CIDRNetworkEntry → Except String (List CIDRNetworkEntry)
  | [], parsedClusterList => Except.ok parsedClusterList
  | clusterEntry :: rest, parsedClusterList =>
    match parseClusterSubnetEntry clusterEntry with
    | Except.error e => Except.error e
    | Except.ok parsedClusterEntry =>
      if cidrsOverlap parsedClusterEntry.CIDR parsedClusterList then
        Except.error ("CIDR " ++ ipnetString parsedClusterEntry.CIDR ++
          " overlaps with another cluster network CIDR")
      else
        parseClusterSubnetEntriesAux rest (parsedClusterList ++ [parsedClusterEntry])

/-- `parseClusterSubnetEntries`: the comma-separated cluster subnet command
line argument parsed into validated pool descriptors. -/
def parseClusterSubnetEntries (clusterSubnetCmd : String) :
    Except String (List CIDRNetworkEntry) :=
  parseClusterSubnetEntriesAux (stringsSplit clusterSubnetCmd ',') []

/-! ## Closed forms of the generated addresses

Under the constructor's invariant the candidate address of subnet number `n`
is the pool base plus a rotation of `n`'s bits placed inside the pool's
host-and-subnet field; in particular the rotation is a bijection on
`[0, numSubnets)` and every candidate lies inside the pool. -/

theorem mul_pow_lt {n : Nat} (s h : Nat) (hn : n < 2 ^ s) :
    n * 2 ^ h < 2 ^ (s + h) := by
  calc n * 2 ^ h < 2 ^ s * 2 ^ h :=
        Nat.mul_lt_mul_of_lt_of_le hn (Nat.le_refl _) (Nat.pos_pow_of_pos _ (by omega))
    _ = 2 ^ (s + h) := (Nat.pow_add 2 s h).symm

theorem base_junk_lt (base junk m : Nat) (hm : m ≤ 32) (hb : base < 2 ^ 32)
    (hbmod : base % 2 ^ (32 - m) = 0) (hj : junk < 2 ^ (32 - m)) :
    base + junk < 2 ^ 32 := by
  obtain ⟨c, hc⟩ := Nat.dvd_of_mod_eq_zero hbmod
  subst hc
  have h32 : (2 : Nat) ^ 32 = 2 ^ (32 - m) * 2 ^ m := by
    rw [← Nat.pow_add]
    congr 1
    omega
  rw [h32] at hb ⊢
  have hc2 : c < 2 ^ m := by
    by_contra hh
    push_neg at hh
    have := Nat.mul_le_mul_left (2 ^ (32 - m)) hh
    omega
  calc 2 ^ (32 - m) * c + junk < 2 ^ (32 - m) * c + 2 ^ (32 - m) := by omega
    _ = 2 ^ (32 - m) * (c + 1) := by ring
    _ ≤ 2 ^ (32 - m) * 2 ^ m := Nat.mul_le_mul_left _ (by omega)

/-- The two shapes of the stored rotation parameters under `WF`: either the
identity rotation, or the octet-aligning rotation, whose `leftShift` is then
strictly smaller than `numSubnetBits`. -/
theorem rot_branch (sna : SubnetAllocator) (hwf : WF sna) :
    (sna.leftShift = 0 ∧ sna.leftMask = 4294967295 ∧
     sna.rightShift = 0 ∧ sna.rightMask = 0) ∨
    (1 ≤ sna.leftShift ∧ sna.leftShift + 1 ≤ numSubnetBits sna ∧
     sna.leftMask = 2 ^ (32 - sna.network.maskSize) - 1 ∧
     sna.rightShift = numSubnetBits sna - sna.leftShift ∧
     sna.rightMask = (2 ^ sna.leftShift - 1) * 2 ^ sna.hostBits) := by
  obtain ⟨hm, hh1, hh2, _, _, hrot⟩ := hwf
  unfold rotationParams at hrot
  dsimp only at hrot
  split at hrot
  · next hguard =>
    simp only [Prod.mk.injEq] at hrot
    obtain ⟨e1, e2, e3, e4⟩ := hrot
    refine Or.inr ⟨by omega, ?_, e2, ?_, ?_⟩
    · unfold numSubnetBits
      obtain ⟨g1, g2⟩ := hguard
      omega
    · unfold numSubnetBits
      omega
    · rw [e4, e1]
  · simp only [Prod.mk.injEq] at hrot
    exact Or.inl ⟨hrot.1, hrot.2.1, hrot.2.2.1, hrot.2.2.2⟩

/-- Arithmetic core of `genIpu` in the identity-rotation branch. -/
theorem nonrotCore (base m h s n : Nat) (hs : h + s = 32 - m) (hm : m ≤ 32)
    (hbmod : base % 2 ^ (32 - m) = 0) (hn : n < 2 ^ s) :
    base ||| (((((n <<< h) % 2 ^ 32) <<< 0) % 2 ^ 32) &&& 4294967295) |||
      ((((n <<< h) % 2 ^ 32) >>> 0) &&& 0) = base + n * 2 ^ h := by
  have hlt : n * 2 ^ h < 2 ^ (32 - m) := by
    have := mul_pow_lt s h hn
    rwa [show s + h = 32 - m by omega] at this
  have hlt32 : n * 2 ^ h < 2 ^ 32 :=
    lt_of_lt_of_le hlt (Nat.pow_le_pow_right (by omega) (by omega))
  have h2 : (4294967295 : Nat) = 2 ^ 32 - 1 := by norm_num
  rw [Nat.shiftLeft_eq n h, Nat.mod_eq_of_lt hlt32, Nat.shiftLeft_zero,
    Nat.mod_eq_of_lt hlt32, Nat.shiftRight_zero, Nat.and_zero, Nat.or_zero, h2,
    Nat.and_pow_two_sub_one_eq_mod, Nat.mod_eq_of_lt hlt32]
  exact or_eq_add base (n * 2 ^ h) (32 - m) hbmod hlt

/-- Arithmetic core of `genIpu` in the octet-aligning rotation branch: the
low `rightShift` bits of `n` land just above the host bits shifted up by
`leftShift`, and the high `leftShift` bits of `n` land directly above the
host bits. -/
theorem rotCore (base m h s ls rs n : Nat) (hs : h + s = 32 - m) (hm : m ≤ 32)
    (_hls : 1 ≤ ls) (hlss : ls + 1 ≤ s) (hrs : rs = s - ls)
    (hbmod : base % 2 ^ (32 - m) = 0) (hn : n < 2 ^ s) :
    base ||| (((((n <<< h) % 2 ^ 32) <<< ls) % 2 ^ 32) &&& (2 ^ (32 - m) - 1)) |||
      ((((n <<< h) % 2 ^ 32) >>> rs) &&& ((2 ^ ls - 1) * 2 ^ h)) =
    base + n % 2 ^ rs * 2 ^ (h + ls) + n / 2 ^ rs * 2 ^ h := by
  have hlt : n * 2 ^ h < 2 ^ (32 - m) := by
    have := mul_pow_lt s h hn
    rwa [show s + h = 32 - m by omega] at this
  have hlt32 : n * 2 ^ h < 2 ^ 32 :=
    lt_of_lt_of_le hlt (Nat.pow_le_pow_right (by omega) (by omega))
  have hbpos : n % 2 ^ rs < 2 ^ rs := Nat.mod_lt _ (Nat.pos_pow_of_pos _ (by omega))
  have hLlt : n % 2 ^ rs * 2 ^ (h + ls) < 2 ^ (32 - m) := by
    have := mul_pow_lt rs (h + ls) hbpos
    rwa [show rs + (h + ls) = 32 - m by omega] at this
  have ha : n / 2 ^ rs < 2 ^ ls := by
    rw [Nat.div_lt_iff_lt_mul (Nat.pos_pow_of_pos _ (by omega))]
    calc n < 2 ^ s := hn
      _ = 2 ^ ls * 2 ^ rs := by rw [← Nat.pow_add]; congr 1; omega
  have hRlt : n / 2 ^ rs * 2 ^ h < 2 ^ (h + ls) := by
    have := mul_pow_lt ls h ha
    rwa [show ls + h = h + ls by omega] at this
  rw [Nat.shiftLeft_eq n h, Nat.mod_eq_of_lt hlt32]
  have hL : (((n * 2 ^ h) <<< ls) % 2 ^ 32) &&& (2 ^ (32 - m) - 1) =
      n % 2 ^ rs * 2 ^ (h + ls) := by
    rw [Nat.shiftLeft_eq, Nat.and_pow_two_sub_one_eq_mod,
      Nat.mod_mod_of_dvd _ (Nat.pow_dvd_pow 2 (by omega))]
    have e1 : n * 2 ^ h * 2 ^ ls = n * 2 ^ (h + ls) := by
      rw [mul_assoc, ← Nat.pow_add]
    rw [e1]
    conv_lhs => rw [← Nat.div_add_mod n (2 ^ rs)]
    rw [add_mul]
    have e2 : 2 ^ rs * (n / 2 ^ rs) * 2 ^ (h + ls) = 2 ^ (32 - m) * (n / 2 ^ rs) := by
      rw [mul_comm (2 ^ rs) (n / 2 ^ rs), mul_assoc, ← Nat.pow_add,
        show rs + (h + ls) = 32 - m by omega]
      ring
    rw [e2, Nat.mul_add_mod]
    exact Nat.mod_eq_of_lt hLlt
  have hR : ((n * 2 ^ h) >>> rs) &&& ((2 ^ ls - 1) * 2 ^ h) =
      n / 2 ^ rs * 2 ^ h := by
    rw [Nat.shiftRight_eq_div_pow, and_mul_pow_mask, Nat.div_div_eq_div_mul,
      Nat.mul_div_mul_right n (2 ^ rs) (Nat.pos_pow_of_pos _ (by omega)),
      Nat.mod_eq_of_lt ha]
  rw [hL, hR, or_eq_add base _ (32 - m) hbmod hLlt]
  have hsum_mod : (base + n % 2 ^ rs * 2 ^ (h + ls)) % 2 ^ (h + ls) = 0 := by
    have hd1 : (2 : Nat) ^ (h + ls) ∣ base :=
      dvd_trans (Nat.pow_dvd_pow 2 (by omega)) (Nat.dvd_of_mod_eq_zero hbmod)
    have hd2 : (2 : Nat) ^ (h + ls) ∣ n % 2 ^ rs * 2 ^ (h + ls) := Dvd.intro_left _ rfl
    exact Nat.dvd_iff_mod_eq_zero.mp (dvd_add hd1 hd2)
  rw [or_eq_add _ _ (h + ls) hsum_mod hRlt]

theorem genIpu_eq_nonrot (sna : SubnetAllocator) (hwf : WF sna)
    (hls : sna.leftShift = 0) (hlm : sna.leftMask = 4294967295)
    (hrs : sna.rightShift = 0) (hrm : sna.rightMask = 0)
    (n : Nat) (hn : n < numSubnets sna) :
    genIpu sna n = sna.network.ip + n * 2 ^ sna.hostBits := by
  obtain ⟨hm, hh1, hh2, hb, hbmod, _⟩ := hwf
  unfold numSubnets at hn
  unfold genIpu
  dsimp only
  rw [hls, hlm, hrs, hrm]
  exact nonrotCore sna.network.ip sna.network.maskSize sna.hostBits
    (numSubnetBits sna) n (by unfold numSubnetBits; omega) hm hbmod hn

theorem genIpu_eq_rot (sna : SubnetAllocator) (hwf : WF sna)
    (hls1 : 1 ≤ sna.leftShift) (hlss : sna.leftShift + 1 ≤ numSubnetBits sna)
    (hlm : sna.leftMask = 2 ^ (32 - sna.network.maskSize) - 1)
    (hrs : sna.rightShift = numSubnetBits sna - sna.leftShift)
    (hrm : sna.rightMask = (2 ^ sna.leftShift - 1) * 2 ^ sna.hostBits)
    (n : Nat) (hn : n < numSubnets sna) :
    genIpu sna n = sna.network.ip
      + n % 2 ^ sna.rightShift * 2 ^ (sna.hostBits + sna.leftShift)
      + n / 2 ^ sna.rightShift * 2 ^ sna.hostBits := by
  obtain ⟨hm, hh1, hh2, hb, hbmod, _⟩ := hwf
  unfold numSubnets at hn
  unfold genIpu
  dsimp only
  rw [hlm, hrm]
  exact rotCore sna.network.ip sna.network.maskSize sna.hostBits
    (numSubnetBits sna) sna.leftShift sna.rightShift n
    (by unfold numSubnetBits; omega) hm hls1 hlss hrs hbmod hn

theorem div_lt_pow_ls (sna : SubnetAllocator)
    (hlss : sna.leftShift + 1 ≤ numSubnetBits sna)
    (hrs : sna.rightShift = numSubnetBits sna - sna.leftShift)
    (n : Nat) (hn : n < numSubnets sna) :
    n / 2 ^ sna.rightShift < 2 ^ sna.leftShift := by
  rw [Nat.div_lt_iff_lt_mul (Nat.pos_pow_of_pos _ (by omega))]
  calc n < 2 ^ numSubnetBits sna := hn
    _ = 2 ^ sna.leftShift * 2 ^ sna.rightShift := by
        rw [← Nat.pow_add]
        congr 1
        omega

theorem genIpu_decomp (sna : SubnetAllocator) (hwf : WF sna) (n : Nat)
    (hn : n < numSubnets sna) :
    ∃ junk, genIpu sna n = sna.network.ip + junk ∧
      junk < 2 ^ (32 - sna.network.maskSize) := by
  rcases rot_branch sna hwf with ⟨hls, hlm, hrs, hrm⟩ | ⟨hls1, hlss, hlm, hrs, hrm⟩
  · refine ⟨n * 2 ^ sna.hostBits, genIpu_eq_nonrot sna hwf hls hlm hrs hrm n hn, ?_⟩
    obtain ⟨hm, hh1, hh2, hb, hbmod, _⟩ := hwf
    have := mul_pow_lt (numSubnetBits sna) sna.hostBits hn
    rwa [show numSubnetBits sna + sna.hostBits = 32 - sna.network.maskSize by
      unfold numSubnetBits; omega] at this
  · refine ⟨n % 2 ^ sna.rightShift * 2 ^ (sna.hostBits + sna.leftShift)
      + n / 2 ^ sna.rightShift * 2 ^ sna.hostBits, ?_, ?_⟩
    · rw [genIpu_eq_rot sna hwf hls1 hlss hlm hrs hrm n hn, add_assoc]
    · obtain ⟨hm, hh1, hh2, hb, hbmod, _⟩ := hwf
      have hbnd : n % 2 ^ sna.rightShift ≤ 2 ^ sna.rightShift - 1 := by
        have := Nat.mod_lt n (show 0 < 2 ^ sna.rightShift from Nat.pos_pow_of_pos _ (by omega))
        omega
      have hsum : sna.rightShift + (sna.hostBits + sna.leftShift) =
          32 - sna.network.maskSize := by
        unfold numSubnetBits at hrs hlss
        omega
      have hX := Nat.mul_le_mul_right (2 ^ (sna.hostBits + sna.leftShift)) hbnd
      have hE : (2 ^ sna.rightShift - 1) * 2 ^ (sna.hostBits + sna.leftShift) =
          2 ^ (32 - sna.network.maskSize) - 2 ^ (sna.hostBits + sna.leftShift) := by
        rw [Nat.sub_mul, one_mul, ← Nat.pow_add, hsum]
      have ha := div_lt_pow_ls sna hlss hrs n hn
      have hY : n / 2 ^ sna.rightShift * 2 ^ sna.hostBits <
          2 ^ (sna.hostBits + sna.leftShift) := by
        have := mul_pow_lt sna.leftShift sna.hostBits ha
        rwa [Nat.add_comm] at this
      have hEle : 2 ^ (sna.hostBits + sna.leftShift) ≤ 2 ^ (32 - sna.network.maskSize) :=
        Nat.pow_le_pow_right (by omega) (by omega)
      omega

theorem genIpu_lt (sna : SubnetAllocator) (hwf : WF sna) (n : Nat)
    (hn : n < numSubnets sna) : genIpu sna n < 2 ^ 32 := by
  obtain ⟨junk, hj, hjlt⟩ := genIpu_decomp sna hwf n hn
  rw [hj]
  exact base_junk_lt _ junk _ hwf.1 hwf.2.2.2.1 hwf.2.2.2.2.1 hjlt

theorem genIpu_contains (sna : SubnetAllocator) (hwf : WF sna) (n : Nat)
    (hn : n < numSubnets sna) :
    ipnetContains sna.network (genIpu sna n) = true := by
  obtain ⟨junk, hj, hjlt⟩ := genIpu_decomp sna hwf n hn
  obtain ⟨hm, _, _, hb, hbmod, _⟩ := hwf
  obtain ⟨c, hc⟩ := Nat.dvd_of_mod_eq_zero hbmod
  unfold ipnetContains cidrMask
  simp only [beq_iff_eq]
  rw [hj, and_mul_pow_mask]
  have hpos : 0 < (2 : Nat) ^ (32 - sna.network.maskSize) :=
    Nat.pos_pow_of_pos _ (by omega)
  have hdiv : (sna.network.ip + junk) / 2 ^ (32 - sna.network.maskSize) = c := by
    rw [hc, Nat.mul_add_div hpos, Nat.div_eq_of_lt hjlt, add_zero]
  rw [hdiv]
  have hc2 : c < 2 ^ sna.network.maskSize := by
    rw [hc] at hb
    by_contra hh
    push_neg at hh
    have h32 : (2 : Nat) ^ 32 =
        2 ^ (32 - sna.network.maskSize) * 2 ^ sna.network.maskSize := by
      rw [← Nat.pow_add]
      congr 1
      omega
    have := Nat.mul_le_mul_left (2 ^ (32 - sna.network.maskSize)) hh
    omega
  rw [Nat.mod_eq_of_lt hc2, hc, mul_comm]

theorem genIpu_inj (sna : SubnetAllocator) (hwf : WF sna) {n1 n2 : Nat}
    (h1 : n1 < numSubnets sna) (h2 : n2 < numSubnets sna)
    (he : genIpu sna n1 = genIpu sna n2) : n1 = n2 := by
  rcases rot_branch sna hwf with ⟨hls, hlm, hrs, hrm⟩ | ⟨hls1, hlss, hlm, hrs, hrm⟩
  · rw [genIpu_eq_nonrot sna hwf hls hlm hrs hrm n1 h1,
      genIpu_eq_nonrot sna hwf hls hlm hrs hrm n2 h2] at he
    have hc := Nat.add_left_cancel he
    exact Nat.eq_of_mul_eq_mul_right (Nat.pos_pow_of_pos _ (by omega)) hc
  · rw [genIpu_eq_rot sna hwf hls1 hlss hlm hrs hrm n1 h1,
      genIpu_eq_rot sna hwf hls1 hlss hlm hrs hrm n2 h2] at he
    have hf : ∀ k : Nat,
        k % 2 ^ sna.rightShift * 2 ^ (sna.hostBits + sna.leftShift)
          + k / 2 ^ sna.rightShift * 2 ^ sna.hostBits =
        (k % 2 ^ sna.rightShift * 2 ^ sna.leftShift + k / 2 ^ sna.rightShift)
          * 2 ^ sna.hostBits := by
      intro k
      rw [Nat.pow_add]
      ring
    have hsum : n1 % 2 ^ sna.rightShift * 2 ^ (sna.hostBits + sna.leftShift)
        + n1 / 2 ^ sna.rightShift * 2 ^ sna.hostBits =
        n2 % 2 ^ sna.rightShift * 2 ^ (sna.hostBits + sna.leftShift)
        + n2 / 2 ^ sna.rightShift * 2 ^ sna.hostBits := by omega
    have he2 := (hf n1).symm.trans (hsum.trans (hf n2))
    have hq := Nat.eq_of_mul_eq_mul_right
      (Nat.pos_pow_of_pos sna.hostBits (by omega)) he2
    have ha1 := div_lt_pow_ls sna hlss hrs n1 h1
    have ha2 := div_lt_pow_ls sna hlss hrs n2 h2
    have m1 : (n1 % 2 ^ sna.rightShift * 2 ^ sna.leftShift + n1 / 2 ^ sna.rightShift)
        % 2 ^ sna.leftShift = n1 / 2 ^ sna.rightShift := by
      rw [mul_comm (n1 % 2 ^ sna.rightShift) (2 ^ sna.leftShift), Nat.mul_add_mod,
        Nat.mod_eq_of_lt ha1]
    have m2 : (n2 % 2 ^ sna.rightShift * 2 ^ sna.leftShift + n2 / 2 ^ sna.rightShift)
        % 2 ^ sna.leftShift = n2 / 2 ^ sna.rightShift := by
      rw [mul_comm (n2 % 2 ^ sna.rightShift) (2 ^ sna.leftShift), Nat.mul_add_mod,
        Nat.mod_eq_of_lt ha2]
    have haeq : n1 / 2 ^ sna.rightShift = n2 / 2 ^ sna.rightShift := by
      rw [← m1, ← m2, hq]
    have hbeq : n1 % 2 ^ sna.rightShift = n2 % 2 ^ sna.rightShift := by
      have hmul : n1 % 2 ^ sna.rightShift * 2 ^ sna.leftShift =
          n2 % 2 ^ sna.rightShift * 2 ^ sna.leftShift := by omega
      exact Nat.eq_of_mul_eq_mul_right (Nat.pos_pow_of_pos _ (by omega)) hmul
    calc n1 = 2 ^ sna.rightShift * (n1 / 2 ^ sna.rightShift) + n1 % 2 ^ sna.rightShift :=
          (Nat.div_add_mod n1 _).symm
      _ = 2 ^ sna.rightShift * (n2 / 2 ^ sna.rightShift) + n2 % 2 ^ sna.rightShift := by
          rw [haeq, hbeq]
      _ = n2 := Nat.div_add_mod n2 _

theorem genSubnet_ip (sna : SubnetAllocator) (n : Nat) :
    (genSubnet sna n).ip = genIpu sna n := rfl

theorem genKey_inj (sna : SubnetAllocator) (hwf : WF sna) {n1 n2 : Nat}
    (h1 : n1 < numSubnets sna) (h2 : n2 < numSubnets sna)
    (he : ipnetString (genSubnet sna n1) = ipnetString (genSubnet sna n2)) :
    n1 = n2 := by
  have hs := ipnetString_inj (a := genSubnet sna n1) (b := genSubnet sna n2)
    (genIpu_lt sna hwf n1 h1) (genIpu_lt sna hwf n2 h2) he
  have : genIpu sna n1 = genIpu sna n2 := congrArg IPNet.ip hs
  exact genIpu_inj sna hwf h1 h2 this

/-! ## The canonical run of an allocator from the empty state -/

/-- The allocation map after `k` successful allocations from the empty map:
the first `k` candidate keys, all marked in-use. -/
def runMap (sna : SubnetAllocator) (k : Nat) : List (String × Bool) :=
  (List.range k).map (fun j => (ipnetString (genSubnet sna j), true))

theorem mapGet_eq_false_of_not_mem (m : List (String × Bool)) (k : String)
    (h : k ∉ mapKeys m) : mapGet m k = false := by
  induction m with
  | nil => rfl
  | cons hd t ih =>
    obtain ⟨k₀, v₀⟩ := hd
    simp only [mapKeys, List.map_cons, List.mem_cons] at h
    push_neg at h
    have hne : ¬(k₀ = k) := fun he => h.1 he.symm
    simp only [mapGet, if_neg hne]
    exact ih h.2

theorem mapGet_append (m₁ m₂ : List (String × Bool)) (x : String) :
    mapGet (m₁ ++ m₂) x = if x ∈ mapKeys m₁ then mapGet m₁ x else mapGet m₂ x := by
  induction m₁ with
  | nil => simp [mapKeys]
  | cons hd t ih =>
    obtain ⟨k₀, v₀⟩ := hd
    by_cases h0 : k₀ = x
    · simp [mapGet, mapKeys, h0]
    · have hxk : ¬(x = k₀) := fun he => h0 he.symm
      simp only [mapKeys] at ih
      simp only [List.cons_append, mapGet, if_neg h0, ih, mapKeys, List.map_cons,
        List.mem_cons, hxk, false_or]
      exact ih

theorem runMap_succ (sna : SubnetAllocator) (k : Nat) :
    runMap sna (k + 1) = runMap sna k ++ [(ipnetString (genSubnet sna k), true)] := by
  unfold runMap
  rw [List.range_succ, List.map_append]
  rfl

theorem mapKeys_runMap (sna : SubnetAllocator) (k : Nat) :
    mapKeys (runMap sna k) =
      (List.range k).map (fun j => ipnetString (genSubnet sna j)) := by
  unfold runMap mapKeys
  rw [List.map_map]
  rfl

theorem key_not_mem_runMap (sna : SubnetAllocator) (hwf : WF sna) {k j : Nat}
    (_hk : k ≤ numSubnets sna) (hj : j < numSubnets sna) (hjk : k ≤ j) :
    ipnetString (genSubnet sna j) ∉ mapKeys (runMap sna k) := by
  rw [mapKeys_runMap]
  intro hmem
  obtain ⟨j', hj', he⟩ := List.mem_map.mp hmem
  have hj'k : j' < k := List.mem_range.mp hj'
  have : j' = j := genKey_inj sna hwf (by omega) hj he
  omega

theorem mapGet_runMap (sna : SubnetAllocator) (hwf : WF sna) {k j : Nat}
    (hk : k ≤ numSubnets sna) (hj : j < numSubnets sna) :
    mapGet (runMap sna k) (ipnetString (genSubnet sna j)) = decide (j < k) := by
  induction k with
  | zero => simp [runMap, mapGet]
  | succ k ih =>
    have hk' : k ≤ numSubnets sna := by omega
    rw [runMap_succ, mapGet_append]
    by_cases hjk : j < k
    · have hmem : ipnetString (genSubnet sna j) ∈ mapKeys (runMap sna k) := by
        rw [mapKeys_runMap]
        exact List.mem_map.mpr ⟨j, List.mem_range.mpr hjk, rfl⟩
      rw [if_pos hmem, ih hk']
      have h1 : j < k + 1 := by omega
      simp [hjk, h1]
    · rw [if_neg (key_not_mem_runMap sna hwf hk' hj (by omega))]
      by_cases hjk2 : j = k
      · subst hjk2
        simp [mapGet, Nat.lt_succ_self]
      · have hne : ¬(ipnetString (genSubnet sna k) = ipnetString (genSubnet sna j)) := by
          intro he
          exact hjk2 (genKey_inj sna hwf hj (by omega) he.symm)
        have hnlt : ¬(j < k + 1) := by omega
        simp [mapGet, hne, hnlt]

theorem numSubnets_update (sna : SubnetAllocator) (m' : List (String × Bool)) (n' : Nat) :
    numSubnets { sna with allocMap := m', next := n' } = numSubnets sna := rfl

theorem genSubnet_update (sna : SubnetAllocator) (m' : List (String × Bool)) (n' : Nat)
    (x : Nat) : genSubnet { sna with allocMap := m', next := n' } x = genSubnet sna x := rfl

/-- One successful allocation step of the canonical run: in state
`(runMap k, next = k)` with `k < numSubnets`, `GetNetwork` immediately finds
candidate index `k` free, returns its subnet and moves to
`(runMap (k+1), next = k+1)`. -/
theorem GetNetwork_runStep (sna : SubnetAllocator) (hwf : WF sna) (k : Nat)
    (hk : k < numSubnets sna) :
    GetNetwork { sna with allocMap := runMap sna k, next := k } =
      (Except.ok (genSubnet sna k),
       { sna with allocMap := runMap sna (k + 1), next := k + 1 }) := by
  have hNpos : 0 < numSubnets sna := Nat.pos_pow_of_pos _ (by omega)
  unfold GetNetwork
  simp only [numSubnets_update, genSubnet_update]
  obtain ⟨N', hN'⟩ : ∃ N', numSubnets sna = N' + 1 := ⟨numSubnets sna - 1, by omega⟩
  have hfind : (List.range (numSubnets sna)).find? (fun i =>
      !(mapGet (runMap sna k)
          (ipnetString (genSubnet sna ((i + k) % numSubnets sna))))) = some 0 := by
    rw [hN', List.range_succ_eq_map]
    apply List.find?_cons_of_pos
    have hmod : (0 + k) % (N' + 1) = k := by
      rw [Nat.zero_add, ← hN', Nat.mod_eq_of_lt hk]
    rw [hmod, mapGet_runMap sna hwf (le_of_lt hk) hk]
    simp
  rw [hfind]
  dsimp only
  have hmod : (0 + k) % numSubnets sna = k := by
    rw [Nat.zero_add, Nat.mod_eq_of_lt hk]
  rw [hmod, mapSet_of_not_mem _ _ _
    (key_not_mem_runMap sna hwf (le_of_lt hk) hk (Nat.le_refl k)), ← runMap_succ]

/-- The exhausted step: in state `(runMap numSubnets, next = numSubnets)`
every candidate is marked, so `GetNetwork` fails and resets the cursor. -/
theorem GetNetwork_exhausted (sna : SubnetAllocator) (hwf : WF sna) :
    GetNetwork { sna with allocMap := runMap sna (numSubnets sna), next := numSubnets sna } =
      (Except.error "No subnets available.",
       { sna with allocMap := runMap sna (numSubnets sna), next := 0 }) := by
  unfold GetNetwork
  simp only [numSubnets_update, genSubnet_update]
  have hfind : (List.range (numSubnets sna)).find? (fun i =>
      !(mapGet (runMap sna (numSubnets sna))
          (ipnetString (genSubnet sna
            ((i + numSubnets sna) % numSubnets sna))))) = none := by
    rw [List.find?_eq_none]
    intro i hi
    have hiN : i < numSubnets sna := List.mem_range.mp hi
    have hmod : (i + numSubnets sna) % numSubnets sna = i := by
      rw [Nat.add_mod_right, Nat.mod_eq_of_lt hiN]
    rw [hmod, mapGet_runMap sna hwf (Nat.le_refl _) hiN]
    simp [hiN]
  rw [hfind]

/-- The canonical run: starting from the empty map with cursor 0, the first
`k ≤ numSubnets` calls all succeed and return the subnets of indices
`0, …, k-1` in order. -/
theorem allocRun_empty (sna : SubnetAllocator) (hwf : WF sna) (hmap : sna.allocMap = [])
    (hnext : sna.next = 0) :
    ∀ k, k ≤ numSubnets sna →
      allocRun sna k = ((List.range k).map (genSubnet sna),
        { sna with allocMap := runMap sna k, next := k }) := by
  intro k
  induction k with
  | zero =>
    intro _
    show ([], sna) = _
    simp only [List.range_zero, List.map_nil, runMap]
    rw [← hmap, ← hnext]
  | succ k ih =>
    intro hk1
    have hk : k ≤ numSubnets sna := by omega
    show (match allocRun sna k with
      | (l, s) =>
        match GetNetwork s with
        | (Except.ok S, s') => (l ++ [S], s')
        | (Except.error _, s') => (l, s')) = _
    rw [ih hk]
    dsimp only
    rw [GetNetwork_runStep sna hwf k (by omega)]
    dsimp only
    rw [List.range_succ, List.map_append]
    rfl

/-! ## Behavioural lemmas about single operations -/

/-- What a successful `GetNetwork` tells us: a candidate index `n` below
`numSubnets` was free in the map, is returned, marked, and the cursor moves
to `n + 1`; the immutable fields are untouched. -/
theorem GetNetwork_ok_spec (sna : SubnetAllocator) {S : IPNet} {sna' : SubnetAllocator}
    (h : GetNetwork sna = (Except.ok S, sna')) :
    ∃ n, n < numSubnets sna ∧ S = genSubnet sna n ∧
      mapGet sna.allocMap (ipnetString S) = false ∧
      sna' = { sna with allocMap := mapSet sna.allocMap (ipnetString S) true, next := n + 1 } := by
  unfold GetNetwork at h
  cases hf : (List.range (numSubnets sna)).find? (fun i =>
      !(mapGet sna.allocMap
          (ipnetString (genSubnet sna ((i + sna.next) % numSubnets sna))))) with
  | none =>
    rw [hf] at h
    rw [Prod.mk.injEq] at h
    exact absurd h.1 (by simp)
  | some i =>
    rw [hf] at h
    dsimp only at h
    rw [Prod.mk.injEq] at h
    obtain ⟨h1, h2⟩ := h
    injection h1 with h1
    have hNpos : 0 < numSubnets sna := Nat.pos_pow_of_pos _ (by omega)
    have hpred := List.find?_some hf
    simp only [Bool.not_eq_true'] at hpred
    refine ⟨(i + sna.next) % numSubnets sna, Nat.mod_lt _ hNpos, h1.symm, ?_, ?_⟩
    · rw [← h1]
      exact hpred
    · rw [← h2, h1]

/-- A failing `GetNetwork` resets the cursor to 0 and leaves the map alone. -/
theorem GetNetwork_err_spec (sna : SubnetAllocator) {e : String} {sna' : SubnetAllocator}
    (h : GetNetwork sna = (Except.error e, sna')) :
    sna' = { sna with next := 0 } ∧ e = "No subnets available." := by
  unfold GetNetwork at h
  cases hf : (List.range (numSubnets sna)).find? (fun i =>
      !(mapGet sna.allocMap
          (ipnetString (genSubnet sna ((i + sna.next) % numSubnets sna))))) with
  | none =>
    rw [hf] at h
    rw [Prod.mk.injEq] at h
    obtain ⟨h1, h2⟩ := h
    injection h1 with h1
    exact ⟨h2.symm, h1.symm⟩
  | some i =>
    rw [hf] at h
    dsimp only at h
    rw [Prod.mk.injEq] at h
    exact absurd h.1 (by simp)

/-- After any `GetNetwork` call the stored cursor is at most `numSubnets`. -/
theorem GetNetwork_next_le (sna : SubnetAllocator) :
    (GetNetwork sna).2.next ≤ numSubnets sna := by
  unfold GetNetwork
  cases hf : (List.range (numSubnets sna)).find? (fun i =>
      !(mapGet sna.allocMap
          (ipnetString (genSubnet sna ((i + sna.next) % numSubnets sna))))) with
  | none => exact Nat.zero_le _
  | some i =>
    dsimp only
    have hNpos : 0 < numSubnets sna := Nat.pos_pow_of_pos _ (by omega)
    have := Nat.mod_lt (i + sna.next) hNpos
    omega

/-- The three-way case split of `ReleaseNetwork`, with the exact error
messages: not in pool, already available, or marked free in place. -/
theorem ReleaseNetwork_cases (sna : SubnetAllocator) (ipnet : IPNet) :
    (ipnetContains sna.network ipnet.ip = false ∧
      ReleaseNetwork sna ipnet = Except.error ("Provided subnet " ++ ipnetString ipnet ++
        " doesn't belong to the network " ++ ipnetString sna.network ++ ".")) ∨
    (ipnetContains sna.network ipnet.ip = true ∧
      mapGet sna.allocMap (ipnetString ipnet) = false ∧
      ReleaseNetwork sna ipnet = Except.error ("Provided subnet " ++ ipnetString ipnet ++
        " is already available.")) ∨
    (ipnetContains sna.network ipnet.ip = true ∧
      mapGet sna.allocMap (ipnetString ipnet) = true ∧
      ReleaseNetwork sna ipnet =
        Except.ok { sna with allocMap := mapSet sna.allocMap (ipnetString ipnet) false }) := by
  unfold ReleaseNetwork
  cases hc : ipnetContains sna.network ipnet.ip with
  | false => exact Or.inl ⟨rfl, rfl⟩
  | true =>
    cases hg : mapGet sna.allocMap (ipnetString ipnet) with
    | false => exact Or.inr (Or.inl ⟨rfl, rfl, rfl⟩)
    | true => exact Or.inr (Or.inr ⟨rfl, rfl, rfl⟩)

/-- `GetNetwork` never touches an entry that is marked in-use: the entry
stays in-use and the returned subnet (if any) has a different key. -/
theorem GetNetwork_true_inv (sna : SubnetAllocator) (k0 : String)
    (h : mapGet sna.allocMap k0 = true) :
    mapGet (GetNetwork sna).2.allocMap k0 = true ∧
      ∀ S, (GetNetwork sna).1 = Except.ok S → ipnetString S ≠ k0 := by
  unfold GetNetwork
  cases hf : (List.range (numSubnets sna)).find? (fun i =>
      !(mapGet sna.allocMap
          (ipnetString (genSubnet sna ((i + sna.next) % numSubnets sna))))) with
  | none =>
    dsimp only
    exact ⟨h, fun S hS => by cases hS⟩
  | some i =>
    dsimp only
    have hpred := List.find?_some hf
    simp only [Bool.not_eq_true'] at hpred
    have hne : ipnetString (genSubnet sna ((i + sna.next) % numSubnets sna)) ≠ k0 := by
      intro he
      rw [he, h] at hpred
      cases hpred
    constructor
    · rw [mapGet_mapSet_ne _ _ (Ne.symm hne)]
      exact h
    · intro S hS
      injection hS with hS
      rw [← hS]
      exact hne

/-- Across any number of `GetNetwork` calls, an entry marked in-use stays
in-use and its subnet is never among the returned ones. -/
theorem allocRun_true_inv (sna : SubnetAllocator) (k0 : String)
    (h : mapGet sna.allocMap k0 = true) (k : Nat) :
    mapGet (allocRun sna k).2.allocMap k0 = true ∧
      ∀ S ∈ (allocRun sna k).1, ipnetString S ≠ k0 := by
  induction k with
  | zero => exact ⟨h, by intro S hS; cases hS⟩
  | succ k ih =>
    obtain ⟨ih1, ih2⟩ := ih
    rcases hrun : allocRun sna k with ⟨l, s⟩
    rw [hrun] at ih1 ih2
    dsimp only at ih1 ih2
    have hstep := GetNetwork_true_inv s k0 ih1
    have hrw : allocRun sna (k + 1) = (match GetNetwork s with
      | (Except.ok S, s') => (l ++ [S], s')
      | (Except.error _, s') => (l, s')) := by
      show (match allocRun sna k with
        | (l, s) => match GetNetwork s with
          | (Except.ok S, s') => (l ++ [S], s')
          | (Except.error _, s') => (l, s')) = _
      rw [hrun]
    rcases hG : GetNetwork s with ⟨r, s'⟩
    rw [hG] at hstep hrw
    dsimp only at hstep
    cases r with
    | ok S =>
      rw [hrw]
      dsimp only
      refine ⟨hstep.1, ?_⟩
      intro x hx
      rcases List.mem_append.mp hx with hx | hx
      · exact ih2 x hx
      · rw [List.mem_singleton] at hx
        subst hx
        exact hstep.2 x rfl
    | error e =>
      rw [hrw]
      dsimp only
      exact ⟨hstep.1, ih2⟩

/-- `GetNetwork` keeps every immutable field. -/
theorem GetNetwork_immutable (sna : SubnetAllocator) :
    (GetNetwork sna).2.network = sna.network ∧
    (GetNetwork sna).2.hostBits = sna.hostBits ∧
    (GetNetwork sna).2.leftShift = sna.leftShift ∧
    (GetNetwork sna).2.leftMask = sna.leftMask ∧
    (GetNetwork sna).2.rightShift = sna.rightShift ∧
    (GetNetwork sna).2.rightMask = sna.rightMask := by
  unfold GetNetwork
  cases hf : (List.range (numSubnets sna)).find? (fun i =>
      !(mapGet sna.allocMap
          (ipnetString (genSubnet sna ((i + sna.next) % numSubnets sna))))) with
  | none => exact ⟨rfl, rfl, rfl, rfl, rfl, rfl⟩
  | some i => exact ⟨rfl, rfl, rfl, rfl, rfl, rfl⟩

theorem WF_GetNetwork (sna : SubnetAllocator) (hwf : WF sna) : WF (GetNetwork sna).2 := by
  obtain ⟨e1, e2, e3, e4, e5, e6⟩ := GetNetwork_immutable sna
  unfold WF at hwf ⊢
  rw [e1, e2, e3, e4, e5, e6]
  exact hwf

theorem WF_ReleaseNetwork (sna : SubnetAllocator) (ipnet : IPNet)
    {sna' : SubnetAllocator} (h : ReleaseNetwork sna ipnet = Except.ok sna')
    (hwf : WF sna) : WF sna' := by
  rcases ReleaseNetwork_cases sna ipnet with ⟨_, he⟩ | ⟨_, _, he⟩ | ⟨_, _, he⟩
  · rw [he] at h; cases h
  · rw [he] at h; cases h
  · rw [he] at h
    injection h with h
    rw [← h]
    exact hwf

theorem ReleaseNetwork_next (sna : SubnetAllocator) (ipnet : IPNet)
    {sna' : SubnetAllocator} (h : ReleaseNetwork sna ipnet = Except.ok sna') :
    sna'.next = sna.next := by
  rcases ReleaseNetwork_cases sna ipnet with ⟨_, he⟩ | ⟨_, _, he⟩ | ⟨_, _, he⟩
  · rw [he] at h; cases h
  · rw [he] at h; cases h
  · rw [he] at h
    injection h with h
    rw [← h]

/-! ## Properties of the seeding loop -/

theorem seedEntry_preserves_true (netIP : IPNet) (amap : List (String × Bool))
    (e k : String) (h : mapGet amap k = true) :
    mapGet (seedEntry netIP amap e) k = true := by
  unfold seedEntry
  rcases ParseCIDR e with _ | ⟨ip0, nIp⟩
  · exact h
  · dsimp only
    split
    · by_cases hk : ipnetString nIp = k
      · rw [← hk, mapGet_mapSet_self]
      · rw [mapGet_mapSet_ne _ _ (fun he => hk he.symm)]
        exact h
    · exact h

theorem seedFold_preserves_true (netIP : IPNet) (l : List String) :
    ∀ amap k, mapGet amap k = true →
      mapGet (l.foldl (seedEntry netIP) amap) k = true := by
  induction l with
  | nil => intro amap k h; exact h
  | cons e t ih =>
    intro amap k h
    exact ih _ k (seedEntry_preserves_true netIP amap e k h)

theorem seedFold_mem_true (netIP : IPNet) (l : List String) :
    ∀ amap e ip0 nIp, e ∈ l → ParseCIDR e = some (ip0, nIp) →
      ipnetContains netIP nIp.ip = true →
      mapGet (l.foldl (seedEntry netIP) amap) (ipnetString nIp) = true := by
  induction l with
  | nil => intro _ _ _ _ h; cases h
  | cons e0 t ih =>
    intro amap e ip0 nIp hmem hp hc
    rcases List.mem_cons.mp hmem with he | he
    · subst he
      rw [List.foldl_cons]
      apply seedFold_preserves_true
      unfold seedEntry
      rw [hp]
      dsimp only
      rw [if_pos hc, mapGet_mapSet_self]
    · exact ih _ e ip0 nIp he hp hc

theorem seedFold_filter (netIP : IPNet) (l : List String) :
    ∀ amap, l.foldl (seedEntry netIP) amap =
      (l.filter (seedValid netIP)).foldl (seedEntry netIP) amap := by
  induction l with
  | nil => intro amap; rfl
  | cons e t ih =>
    intro amap
    by_cases hv : seedValid netIP e = true
    · rw [List.filter_cons_of_pos hv, List.foldl_cons, List.foldl_cons]
      exact ih _
    · have hnoop : seedEntry netIP amap e = amap := by
        unfold seedValid at hv
        unfold seedEntry
        rcases hp : ParseCIDR e with _ | ⟨ip0, nIp⟩
        · rfl
        · rw [hp] at hv
          dsimp only at hv
          dsimp only
          rw [if_neg hv]
      rw [List.filter_cons_of_neg (by simpa using hv), List.foldl_cons, hnoop]
      exact ih amap

/-- When `GetNetwork` fails, every candidate was marked in-use. -/
theorem GetNetwork_err_all_taken (sna : SubnetAllocator) (e : String)
    (sna' : SubnetAllocator) (h : GetNetwork sna = (Except.error e, sna')) :
    ∀ i, i < numSubnets sna →
      mapGet sna.allocMap
        (ipnetString (genSubnet sna ((i + sna.next) % numSubnets sna))) = true := by
  unfold GetNetwork at h
  cases hf : (List.range (numSubnets sna)).find? (fun i =>
      !(mapGet sna.allocMap
          (ipnetString (genSubnet sna ((i + sna.next) % numSubnets sna))))) with
  | some i =>
    rw [hf] at h
    dsimp only at h
    rw [Prod.mk.injEq] at h
    exact absurd h.1 (by simp)
  | none =>
    intro i hi
    have := List.find?_eq_none.mp hf i (List.mem_range.mpr hi)
    simpa using this

/-- Whether construction succeeds does not depend on the preallocated list. -/
theorem NewSubnetAllocator_ok_iff (network : String) (hostBits : Nat)
    (inUse : List String) :
    (∃ sna, NewSubnetAllocator network hostBits inUse = Except.ok sna) ↔
    (∃ sna, NewSubnetAllocator network hostBits [] = Except.ok sna) := by
  unfold NewSubnetAllocator
  rcases ParseCIDR network with _ | ⟨ip0, netIP⟩
  · constructor <;> rintro ⟨sna, hsna⟩ <;> cases hsna
  · dsimp only
    split
    · constructor <;> rintro ⟨sna, hsna⟩ <;> cases hsna
    · split
      · constructor <;> rintro ⟨sna, hsna⟩ <;> cases hsna
      · rcases rotationParams netIP.maskSize hostBits with ⟨a, b, c, d⟩
        dsimp only
        constructor
        · intro
          exact ⟨_, rfl⟩
        · intro
          exact ⟨_, rfl⟩

/-! ## Per-entry parse helpers for the configuration parser -/

theorem parseEntry_bad (entry : String) (h2 : (stringsSplit entry '/').length ≠ 2)
    (h3 : (stringsSplit entry '/').length ≠ 3) :
    parseClusterSubnetEntry entry = Except.error "cluster-cidr not formatted properly" := by
  simp only [parseClusterSubnetEntry]
  rw [if_neg h3, if_neg h2]

theorem parseAux_forall2 (l : List String) :
    ∀ acc rs, parseClusterSubnetEntriesAux l acc = Except.ok rs →
      ∃ rs', rs = acc ++ rs' ∧
        List.Forall₂ (fun e r => parseClusterSubnetEntry e = Except.ok r) l rs' := by
  induction l with
  | nil =>
    intro acc rs h
    injection h with h
    exact ⟨[], by rw [← h]; simp, List.Forall₂.nil⟩
  | cons e t ih =>
    intro acc rs h
    unfold parseClusterSubnetEntriesAux at h
    rcases hp : parseClusterSubnetEntry e with msg | pe
    · rw [hp] at h; cases h
    · rw [hp] at h
      dsimp only at h
      split at h
      · cases h
      · obtain ⟨rs', hrs, hfa⟩ := ih _ _ h
        refine ⟨pe :: rs', ?_, List.Forall₂.cons hp hfa⟩
        rw [hrs]
        simp

theorem parseAux_bad_entry (l : List String) :
    ∀ acc, (∃ entry ∈ l, (stringsSplit entry '/').length ≠ 2 ∧
        (stringsSplit entry '/').length ≠ 3) →
      ∃ msg, parseClusterSubnetEntriesAux l acc = Except.error msg := by
  induction l with
  | nil =>
    rintro acc ⟨e, he, _⟩
    cases he
  | cons e0 t ih =>
    rintro acc ⟨e, he, hb2, hb3⟩
    rcases List.mem_cons.mp he with he0 | hmem
    · subst he0
      refine ⟨"cluster-cidr not formatted properly", ?_⟩
      unfold parseClusterSubnetEntriesAux
      rw [parseEntry_bad e hb2 hb3]
    · unfold parseClusterSubnetEntriesAux
      rcases hp : parseClusterSubnetEntry e0 with msg | pe
      · exact ⟨msg, rfl⟩
      · dsimp only
        split
        · exact ⟨_, rfl⟩
        · exact ih _ ⟨e, hmem, hb2, hb3⟩

/-! ## The claims -/

/-- C3: a subnet just returned by `GetNetwork` can be released exactly once:
an immediately following `ReleaseNetwork` succeeds, and a second
`ReleaseNetwork` of the same subnet fails with the AlreadyFree error. -/
theorem c3_alloc_release_roundtrip (sna : SubnetAllocator) (hwf : WF sna)
    (S : IPNet) (sna1 : SubnetAllocator) (h : GetNetwork sna = (Except.ok S, sna1)) :
    ∃ sna2, ReleaseNetwork sna1 S = Except.ok sna2 ∧
      ReleaseNetwork sna2 S = Except.error ("Provided subnet " ++ ipnetString S ++
        " is already available.") := by
  obtain ⟨n, hn, hSn, hfree, hupd⟩ := GetNetwork_ok_spec sna h
  have hnet1 : sna1.network = sna.network := by rw [hupd]
  have hcont : ipnetContains sna1.network S.ip = true := by
    rw [hnet1, hSn]
    exact genIpu_contains sna hwf n hn
  have hget1 : mapGet sna1.allocMap (ipnetString S) = true := by
    rw [hupd]
    exact mapGet_mapSet_self _ _ _
  rcases ReleaseNetwork_cases sna1 S with ⟨hcF, _⟩ | ⟨_, hgF, _⟩ | ⟨_, _, hok⟩
  · rw [hcont] at hcF
    cases hcF
  · rw [hget1] at hgF
    cases hgF
  · refine ⟨_, hok, ?_⟩
    have hcont2 : ipnetContains ({ sna1 with
        allocMap := mapSet sna1.allocMap (ipnetString S) false } : SubnetAllocator).network
        S.ip = true := hcont
    have hget2 : mapGet ({ sna1 with
        allocMap := mapSet sna1.allocMap (ipnetString S) false } : SubnetAllocator).allocMap
        (ipnetString S) = false := mapGet_mapSet_self _ _ _
    rcases ReleaseNetwork_cases
        { sna1 with allocMap := mapSet sna1.allocMap (ipnetString S) false } S with
      ⟨hcF, _⟩ | ⟨_, _, herr⟩ | ⟨_, hgT, _⟩
    · rw [hcont2] at hcF
      cases hcF
    · exact herr
    · rw [hget2] at hgT
      cases hgT

theorem c3_witness :
    ∃ sna2, ReleaseNetwork (⟨⟨167772160, 24⟩, 8, 0, 4294967295, 0, 0, 1,
        [("10.0.0.0/24", true)]⟩ : SubnetAllocator) ⟨167772160, 24⟩ = Except.ok sna2 ∧
      ReleaseNetwork sna2 ⟨167772160, 24⟩ = Except.error ("Provided subnet " ++
        ipnetString (⟨167772160, 24⟩ : IPNet) ++ " is already available.") :=
  c3_alloc_release_roundtrip ⟨⟨167772160, 24⟩, 8, 0, 4294967295, 0, 0, 0, []⟩ (by decide)
    ⟨167772160, 24⟩
    ⟨⟨167772160, 24⟩, 8, 0, 4294967295, 0, 0, 1, [("10.0.0.0/24", true)]⟩ (by decide)

/-- C4: `ReleaseNetwork` fails with the NotInPool error when the subnet's
address is not contained in the pool's network; fails with the AlreadyFree
error when the canonical CIDR string reads as free from the allocation map
(absent, or present but marked free); otherwise it marks the entry free while
keeping its key present — and removes no key from the map. -/
theorem c4_release_cases (sna : SubnetAllocator) (ipnet : IPNet) :
    (ipnetContains sna.network ipnet.ip = false →
      ReleaseNetwork sna ipnet = Except.error ("Provided subnet " ++ ipnetString ipnet ++
        " doesn't belong to the network " ++ ipnetString sna.network ++ ".")) ∧
    (ipnetContains sna.network ipnet.ip = true →
      mapGet sna.allocMap (ipnetString ipnet) = false →
      ReleaseNetwork sna ipnet = Except.error ("Provided subnet " ++ ipnetString ipnet ++
        " is already available.")) ∧
    (ipnetContains sna.network ipnet.ip = true →
      mapGet sna.allocMap (ipnetString ipnet) = true →
      ∃ sna', ReleaseNetwork sna ipnet = Except.ok sna' ∧
        mapGet sna'.allocMap (ipnetString ipnet) = false ∧
        ipnetString ipnet ∈ mapKeys sna'.allocMap ∧
        mapKeys sna'.allocMap = mapKeys sna.allocMap) := by
  rcases ReleaseNetwork_cases sna ipnet with ⟨hc, he⟩ | ⟨hc, hg, he⟩ | ⟨hc, hg, he⟩
  · refine ⟨fun _ => he, fun h1 _ => ?_, fun h1 _ => ?_⟩ <;>
      (rw [h1] at hc; cases hc)
  · refine ⟨fun h1 => ?_, fun _ _ => he, fun _ h2 => ?_⟩
    · rw [h1] at hc
      cases hc
    · rw [h2] at hg
      cases hg
  · refine ⟨fun h1 => ?_, fun _ h2 => ?_, fun _ _ => ?_⟩
    · rw [h1] at hc
      cases hc
    · rw [h2] at hg
      cases hg
    · have hmem := mem_mapKeys_of_mapGet_true sna.allocMap _ hg
      have hkeys : mapKeys (mapSet sna.allocMap (ipnetString ipnet) false) =
          mapKeys sna.allocMap := mapKeys_mapSet_of_mem _ _ _ hmem
      refine ⟨_, he, mapGet_mapSet_self _ _ _, ?_, hkeys⟩
      show ipnetString ipnet ∈ mapKeys (mapSet sna.allocMap (ipnetString ipnet) false)
      rw [hkeys]
      exact hmem

theorem c4_witness :
    ∃ sna', ReleaseNetwork (⟨⟨167772160, 24⟩, 8, 0, 4294967295, 0, 0, 1,
        [("10.0.0.0/24", true)]⟩ : SubnetAllocator) ⟨167772160, 24⟩ = Except.ok sna' ∧
      mapGet sna'.allocMap (ipnetString (⟨167772160, 24⟩ : IPNet)) = false ∧
      ipnetString (⟨167772160, 24⟩ : IPNet) ∈ mapKeys sna'.allocMap ∧
      mapKeys sna'.allocMap = mapKeys [("10.0.0.0/24", true)] :=
  (c4_release_cases ⟨⟨167772160, 24⟩, 8, 0, 4294967295, 0, 0, 1,
      [("10.0.0.0/24", true)]⟩ ⟨167772160, 24⟩).2.2 (by decide) (by decide)

/-- C5: `NewSubnetAllocator` fails exactly when the pool CIDR does not
parse, or `hostBits = 0`, or `hostBits > 32 - prefixLength`; for every other
input it returns an allocator. -/
theorem c5_invalid_pool_iff (network : String) (hostBits : Nat) (inUse : List String) :
    (∃ msg, NewSubnetAllocator network hostBits inUse = Except.error msg) ↔
      (ParseCIDR network = none ∨ hostBits = 0 ∨
        ∃ ip net, ParseCIDR network = some (ip, net) ∧ 32 - net.maskSize < hostBits) := by
  rcases hp : ParseCIDR network with _ | ⟨ip0, net0⟩
  · have herr : NewSubnetAllocator network hostBits inUse =
        Except.error ("Failed to parse network address: \"" ++ network ++ "\"") := by
      unfold NewSubnetAllocator
      rw [hp]
    exact ⟨fun _ => Or.inl rfl, fun _ => ⟨_, herr⟩⟩
  · by_cases h0 : hostBits = 0
    · have herr : NewSubnetAllocator network hostBits inUse =
          Except.error "Host capacity cannot be zero." := by
        unfold NewSubnetAllocator
        rw [hp]
        dsimp only
        rw [if_pos h0]
      exact ⟨fun _ => Or.inr (Or.inl h0), fun _ => ⟨_, herr⟩⟩
    · by_cases hgt : 32 - net0.maskSize < hostBits
      · have herr : NewSubnetAllocator network hostBits inUse =
            Except.error "Subnet capacity cannot be larger than number of networks available." := by
          unfold NewSubnetAllocator
          rw [hp]
          dsimp only
          rw [if_neg h0, if_pos hgt]
        exact ⟨fun _ => Or.inr (Or.inr ⟨ip0, net0, rfl, hgt⟩), fun _ => ⟨_, herr⟩⟩
      · have hok : ∃ sna, NewSubnetAllocator network hostBits inUse = Except.ok sna := by
          unfold NewSubnetAllocator
          rw [hp]
          dsimp only
          rw [if_neg h0, if_neg hgt]
          rcases rotationParams net0.maskSize hostBits with ⟨a, b, c, d⟩
          exact ⟨_, rfl⟩
        constructor
        · rintro ⟨msg, hmsg⟩
          obtain ⟨sna, hsna⟩ := hok
          rw [hsna] at hmsg
          cases hmsg
        · rintro (h | h | ⟨ip1, net1, hp1, hgt1⟩)
          · cases h
          · exact absurd h h0
          · injection hp1 with hp1
            have hnet : net1 = net0 := (congrArg Prod.snd hp1).symm
            rw [hnet] at hgt1
            exact absurd hgt1 hgt

theorem c5_witness :
    ∃ msg, NewSubnetAllocator "10.0.0.0/8" 33 [] = Except.error msg :=
  (c5_invalid_pool_iff "10.0.0.0/8" 33 []).mpr
    (Or.inr (Or.inr ⟨167772160, ⟨167772160, 8⟩, by decide, by decide⟩))

/-- C7 (amended): the round-robin cursor is applied modulo the subnet count
when it is used, but it is not reduced when stored: after every `GetNetwork`
the stored cursor is at most `numSubnets` (equality occurs after claiming
the highest candidate index; a failed scan stores 0), and `ReleaseNetwork`
never changes the cursor.  The original claim's strict bound
`next < numSubnets` fails, see the counterexample. -/
theorem c7_cursor_bound (sna : SubnetAllocator) :
    (GetNetwork sna).2.next ≤ numSubnets sna ∧
    (∀ ipnet sna', ReleaseNetwork sna ipnet = Except.ok sna' → sna'.next = sna.next) :=
  ⟨GetNetwork_next_le sna, fun ipnet sna' h => ReleaseNetwork_next sna ipnet h⟩

/-- C7 counterexample: on pool 10.0.0.0/24 with hostBits 8 there is exactly
one allocatable subnet; after the first allocation the stored cursor equals
`numSubnets = 1`, so it is not strictly less than the subnet count. -/
theorem c7_counterexample :
    NewSubnetAllocator "10.0.0.0/24" 8 [] =
      Except.ok ⟨⟨167772160, 24⟩, 8, 0, 4294967295, 0, 0, 0, []⟩ ∧
    ¬((GetNetwork (⟨⟨167772160, 24⟩, 8, 0, 4294967295, 0, 0, 0, []⟩ : SubnetAllocator)).2.next <
        numSubnets (⟨⟨167772160, 24⟩, 8, 0, 4294967295, 0, 0, 0, []⟩ : SubnetAllocator)) :=
  ⟨by decide, by decide⟩

theorem c7_witness :
    (GetNetwork (⟨⟨167772160, 24⟩, 8, 0, 4294967295, 0, 0, 0, []⟩ : SubnetAllocator)).2.next ≤
      numSubnets (⟨⟨167772160, 24⟩, 8, 0, 4294967295, 0, 0, 0, []⟩ : SubnetAllocator) ∧
    (⟨⟨167772160, 24⟩, 8, 0, 4294967295, 0, 0, 1, [("10.0.0.0/24", false)]⟩
        : SubnetAllocator).next =
      (⟨⟨167772160, 24⟩, 8, 0, 4294967295, 0, 0, 1, [("10.0.0.0/24", true)]⟩
        : SubnetAllocator).next :=
  ⟨(c7_cursor_bound ⟨⟨167772160, 24⟩, 8, 0, 4294967295, 0, 0, 0, []⟩).1,
   (c7_cursor_bound ⟨⟨167772160, 24⟩, 8, 0, 4294967295, 0, 0, 1,
      [("10.0.0.0/24", true)]⟩).2 ⟨167772160, 24⟩
    ⟨⟨167772160, 24⟩, 8, 0, 4294967295, 0, 0, 1, [("10.0.0.0/24", false)]⟩ (by decide)⟩

/-- C9: each call holds the allocator's mutex for its whole critical
section, so any two concurrent calls execute in one of the two serial
orders; quantifying over the starting state covers both orders.  Two
successive `GetNetwork` calls never return the same subnet, and after a
`ReleaseNetwork` of a subnet succeeds, a second release of the same subnet
(now already free) cannot succeed. -/
theorem c9_serialized_ops (sna : SubnetAllocator) :
    (∀ S1 S2 sna1 sna2, GetNetwork sna = (Except.ok S1, sna1) →
      GetNetwork sna1 = (Except.ok S2, sna2) → S1 ≠ S2) ∧
    (∀ ipnet sna1, ReleaseNetwork sna ipnet = Except.ok sna1 →
      ∀ sna2, ¬(ReleaseNetwork sna1 ipnet = Except.ok sna2)) := by
  constructor
  · intro S1 S2 sna1 sna2 h1 h2 heq
    obtain ⟨n1, hn1, hS1, hfree1, hupd1⟩ := GetNetwork_ok_spec sna h1
    obtain ⟨n2, hn2, hS2, hfree2, hupd2⟩ := GetNetwork_ok_spec sna1 h2
    rw [hupd1] at hfree2
    rw [← heq] at hfree2
    have : mapGet (mapSet sna.allocMap (ipnetString S1) true) (ipnetString S1) = false :=
      hfree2
    rw [mapGet_mapSet_self] at this
    cases this
  · intro ipnet sna1 h1 sna2 h2
    rcases ReleaseNetwork_cases sna ipnet with ⟨_, he⟩ | ⟨_, _, he⟩ | ⟨_, _, he⟩
    · rw [he] at h1; cases h1
    · rw [he] at h1; cases h1
    · rw [he] at h1
      injection h1 with h1
      rcases ReleaseNetwork_cases sna1 ipnet with ⟨_, he2⟩ | ⟨_, _, he2⟩ | ⟨_, hg2, he2⟩
      · rw [he2] at h2; cases h2
      · rw [he2] at h2; cases h2
      · rw [← h1] at hg2
        have : mapGet (mapSet sna.allocMap (ipnetString ipnet) false) (ipnetString ipnet)
            = true := hg2
        rw [mapGet_mapSet_self] at this
        cases this

theorem c9_witness :
    (⟨167772160, 25⟩ : IPNet) ≠ ⟨167772288, 25⟩ ∧
    ¬(ReleaseNetwork (⟨⟨167772160, 24⟩, 7, 0, 4294967295, 0, 0, 2,
        [("10.0.0.0/25", false), ("10.0.0.128/25", true)]⟩ : SubnetAllocator)
        ⟨167772160, 25⟩ =
      Except.ok ⟨⟨167772160, 24⟩, 7, 0, 4294967295, 0, 0, 2,
        [("10.0.0.0/25", false), ("10.0.0.128/25", true)]⟩) :=
  ⟨(c9_serialized_ops ⟨⟨167772160, 24⟩, 7, 0, 4294967295, 0, 0, 0, []⟩).1
      ⟨167772160, 25⟩ ⟨167772288, 25⟩
      ⟨⟨167772160, 24⟩, 7, 0, 4294967295, 0, 0, 1, [("10.0.0.0/25", true)]⟩
      ⟨⟨167772160, 24⟩, 7, 0, 4294967295, 0, 0, 2,
        [("10.0.0.0/25", true), ("10.0.0.128/25", true)]⟩ (by decide) (by decide),
   (c9_serialized_ops ⟨⟨167772160, 24⟩, 7, 0, 4294967295, 0, 0, 2,
        [("10.0.0.0/25", true), ("10.0.0.128/25", true)]⟩).2 ⟨167772160, 25⟩
      ⟨⟨167772160, 24⟩, 7, 0, 4294967295, 0, 0, 2,
        [("10.0.0.0/25", false), ("10.0.0.128/25", true)]⟩ (by decide)
      ⟨⟨167772160, 24⟩, 7, 0, 4294967295, 0, 0, 2,
        [("10.0.0.0/25", false), ("10.0.0.128/25", true)]⟩⟩

/-- C10: a cluster-subnet entry with exactly two slash-separated parts is
accepted with the backwards-compatible default `HostSubnetLength = 24`; an
entry with any number of parts other than two or three is rejected with an
error; `parseClusterSubnetEntries` parses each comma-separated entry by
exactly this per-entry rule and fails whenever one entry has a bad part
count. -/
theorem c10_two_part_default :
    (∀ entry : String, (stringsSplit entry '/').length = 2 →
      ∀ r, parseClusterSubnetEntry entry = Except.ok r → r.HostSubnetLength = 24) ∧
    (∀ entry : String, (stringsSplit entry '/').length ≠ 2 →
      (stringsSplit entry '/').length ≠ 3 →
      ∃ msg, parseClusterSubnetEntry entry = Except.error msg) ∧
    (∀ cmd rs, parseClusterSubnetEntries cmd = Except.ok rs →
      List.Forall₂ (fun e r => parseClusterSubnetEntry e = Except.ok r)
        (stringsSplit cmd ',') rs) ∧
    (∀ cmd, (∃ entry ∈ stringsSplit cmd ',',
        (stringsSplit entry '/').length ≠ 2 ∧ (stringsSplit entry '/').length ≠ 3) →
      ∃ msg, parseClusterSubnetEntries cmd = Except.error msg) := by
  refine ⟨?_, ?_, ?_, ?_⟩
  · intro entry hlen r h
    simp only [parseClusterSubnetEntry] at h
    rw [if_neg (by omega), if_pos hlen] at h
    rcases hp : ParseCIDR (((stringsSplit entry '/').getD 0 "") ++ "/" ++
        ((stringsSplit entry '/').getD 1 "")) with _ | ⟨ip0, cidr⟩
    · rw [hp] at h
      cases h
    · rw [hp] at h
      injection h with h
      rw [← h]
  · intro entry h2 h3
    exact ⟨_, parseEntry_bad entry h2 h3⟩
  · intro cmd rs h
    obtain ⟨rs', hrs, hfa⟩ := parseAux_forall2 _ [] rs h
    rw [hrs]
    simpa using hfa
  · intro cmd hbad
    exact parseAux_bad_entry _ [] hbad

theorem c10_witness :
    (⟨⟨181665792, 21⟩, 24⟩ : CIDRNetworkEntry).HostSubnetLength = 24 ∧
    ∃ msg, parseClusterSubnetEntry "10.0.0.0" = Except.error msg :=
  ⟨c10_two_part_default.1 "10.212.0.0/21" (by decide) ⟨⟨181665792, 21⟩, 24⟩ (by decide),
   c10_two_part_default.2.1 "10.0.0.0" (by decide) (by decide)⟩

theorem parseAux_pairwise (l : List String) :
    ∀ acc rs, parseClusterSubnetEntriesAux l acc = Except.ok rs →
      List.Pairwise (fun e1 e2 : CIDRNetworkEntry =>
        ipnetContains e1.CIDR e2.CIDR.ip = false ∧
        ipnetContains e2.CIDR e1.CIDR.ip = false) acc →
      List.Pairwise (fun e1 e2 : CIDRNetworkEntry =>
        ipnetContains e1.CIDR e2.CIDR.ip = false ∧
        ipnetContains e2.CIDR e1.CIDR.ip = false) rs := by
  induction l with
  | nil =>
    intro acc rs h hp
    injection h with h
    rw [← h]
    exact hp
  | cons e t ih =>
    intro acc rs h hp
    unfold parseClusterSubnetEntriesAux at h
    rcases hpe : parseClusterSubnetEntry e with msg | pe
    · rw [hpe] at h
      cases h
    · rw [hpe] at h
      dsimp only at h
      by_cases hov : cidrsOverlap pe.CIDR acc = true
      · rw [if_pos hov] at h
        cases h
      · rw [if_neg hov] at h
        apply ih _ _ h
        rw [List.pairwise_append]
        refine ⟨hp, List.pairwise_singleton _ _, ?_⟩
        intro x hx y hy
        rw [List.mem_singleton] at hy
        rw [hy]
        have hov' : cidrsOverlap pe.CIDR acc = false := by
          cases hcv : cidrsOverlap pe.CIDR acc
          · rfl
          · exact absurd hcv hov
        unfold cidrsOverlap at hov'
        have := List.any_eq_false.mp hov' x hx
        have hcomp : (ipnetContains pe.CIDR x.CIDR.ip || ipnetContains x.CIDR pe.CIDR.ip)
            = false := by
          cases hb : (ipnetContains pe.CIDR x.CIDR.ip || ipnetContains x.CIDR pe.CIDR.ip)
          · rfl
          · exact absurd hb this
        obtain ⟨hb1, hb2⟩ := Bool.or_eq_false_iff.mp hcomp
        exact ⟨hb2, hb1⟩

/-- C8 (amended): `parseClusterSubnetEntries` does reject overlapping pools —
any successfully parsed list is pairwise non-overlapping — but it does not
validate the hostSubnetLength placement (`hostBits = 32 - hostSubnetLength`
with `hostBits > 0` and `hostBits ≤ 32 - prefixLength`); that validation
only happens later, in `NewSubnetAllocator`.  The counterexample shows an
accepted entry with invalid placement. -/
theorem c8_no_overlap_on_success (cmd : String) (rs : List CIDRNetworkEntry)
    (h : parseClusterSubnetEntries cmd = Except.ok rs) :
    List.Pairwise (fun e1 e2 : CIDRNetworkEntry =>
      ipnetContains e1.CIDR e2.CIDR.ip = false ∧
      ipnetContains e2.CIDR e1.CIDR.ip = false) rs :=
  parseAux_pairwise _ [] rs h List.Pairwise.nil

/-- C8 counterexample: the entry `10.0.0.0/26/24` carries
`hostSubnetLength = 24` against prefix length 26, i.e.
`hostBits = 32 - 24 = 8 > 6 = 32 - 26` — an invalid placement — yet
`parseClusterSubnetEntries` accepts it instead of failing. -/
theorem c8_counterexample :
    parseClusterSubnetEntries "10.0.0.0/26/24" =
      Except.ok [⟨⟨167772160, 26⟩, 24⟩] ∧ 32 - 26 < 32 - 24 :=
  ⟨by decide, by decide⟩

theorem c8_witness :
    List.Pairwise (fun e1 e2 : CIDRNetworkEntry =>
      ipnetContains e1.CIDR e2.CIDR.ip = false ∧
      ipnetContains e2.CIDR e1.CIDR.ip = false)
      [⟨⟨167772160, 16⟩, 24⟩, ⟨⟨167837696, 16⟩, 24⟩] :=
  c8_no_overlap_on_success "10.0.0.0/16,10.1.0.0/16"
    [⟨⟨167772160, 16⟩, 24⟩, ⟨⟨167837696, 16⟩, 24⟩] (by decide)

/-- C6: whether construction succeeds does not depend on the preallocated
list (bad entries are skipped with only a warning); the seeded map equals
the map seeded from only the valid entries, so unparsable or out-of-pool
entries are never recorded; every valid preallocated entry is recorded
in-use, and its subnet is not returned by any number of `GetNetwork` calls. -/
theorem c6_seeding (network : String) (hostBits : Nat) (pre : List String) :
    ((∃ sna, NewSubnetAllocator network hostBits pre = Except.ok sna) ↔
      (∃ sna, NewSubnetAllocator network hostBits [] = Except.ok sna)) ∧
    ∀ sna, NewSubnetAllocator network hostBits pre = Except.ok sna →
      sna.allocMap = (pre.filter (seedValid sna.network)).foldl (seedEntry sna.network) [] ∧
      (∀ e ∈ pre, ∀ ip0 nIp, ParseCIDR e = some (ip0, nIp) →
        ipnetContains sna.network nIp.ip = true →
        mapGet sna.allocMap (ipnetString nIp) = true ∧
        ∀ k, nIp ∉ (allocRun sna k).1) := by
  refine ⟨NewSubnetAllocator_ok_iff network hostBits pre, ?_⟩
  intro sna h
  obtain ⟨hwf, hnext, hmap⟩ := NewSubnetAllocator_WF network hostBits pre sna h
  refine ⟨?_, ?_⟩
  · rw [hmap]
    exact seedFold_filter sna.network pre []
  · intro e he ip0 nIp hp hc
    have hget : mapGet sna.allocMap (ipnetString nIp) = true := by
      rw [hmap]
      exact seedFold_mem_true sna.network pre [] e ip0 nIp he hp hc
    refine ⟨hget, ?_⟩
    intro k hmem
    exact (allocRun_true_inv sna (ipnetString nIp) hget k).2 nIp hmem rfl

theorem c6_witness :
    (⟨⟨167837696, 16⟩, 6, 2, 65535, 8, 192, 0, [("10.1.0.0/26", true)]⟩
        : SubnetAllocator).allocMap =
      ((["10.1.0.0/26", "bad", "11.0.0.0/24"].filter
        (seedValid (⟨167837696, 16⟩ : IPNet))).foldl
          (seedEntry ⟨167837696, 16⟩) []) ∧
    mapGet [("10.1.0.0/26", true)] (ipnetString (⟨167837696, 26⟩ : IPNet)) = true ∧
    (⟨167837696, 26⟩ : IPNet) ∉
      (allocRun ⟨⟨167837696, 16⟩, 6, 2, 65535, 8, 192, 0, [("10.1.0.0/26", true)]⟩ 3).1 := by
  have w := (c6_seeding "10.1.0.0/16" 6 ["10.1.0.0/26", "bad", "11.0.0.0/24"]).2
    ⟨⟨167837696, 16⟩, 6, 2, 65535, 8, 192, 0, [("10.1.0.0/26", true)]⟩ (by decide)
  have w2 := w.2 "10.1.0.0/26" (by decide) 167837696 ⟨167837696, 26⟩ (by decide) (by decide)
  exact ⟨w.1, w2.1, w2.2 3⟩

/-- After the canonical exhaustion, releasing the subnet of index `j` lets
the next scan find index `j` free again. -/
theorem release_then_alloc (sna0 : SubnetAllocator) (hwf : WF sna0) (S : IPNet) (j : Nat)
    (hjN : j < numSubnets sna0) (hjS : genSubnet sna0 j = S) :
    ∃ T sna2, GetNetwork { sna0 with allocMap := mapSet (runMap sna0 (numSubnets sna0)) (ipnetString S) false, next := 0 } = (Except.ok T, sna2) ∧
      ipnetContains sna0.network T.ip = true ∧
      T.maskSize = numSubnetBits sna0 + sna0.network.maskSize := by
  rcases hG : GetNetwork { sna0 with allocMap := mapSet (runMap sna0 (numSubnets sna0)) (ipnetString S) false, next := 0 } with ⟨r, sna2⟩
  cases r with
  | error e =>
    exfalso
    have hall := GetNetwork_err_all_taken _ e sna2 hG
    have hj2 : mapGet (mapSet (runMap sna0 (numSubnets sna0)) (ipnetString S) false)
        (ipnetString (genSubnet sna0 ((j + 0) % numSubnets sna0))) = true := hall j hjN
    rw [Nat.add_zero, Nat.mod_eq_of_lt hjN, hjS] at hj2
    rw [mapGet_mapSet_self] at hj2
    cases hj2
  | ok T =>
    obtain ⟨n, hnlt, hTn, _, _⟩ := GetNetwork_ok_spec _ hG
    have hnlt' : n < numSubnets sna0 := hnlt
    have hTn' : T = genSubnet sna0 n := hTn
    refine ⟨T, sna2, rfl, ?_, ?_⟩
    · rw [hTn']
      exact genIpu_contains sna0 hwf n hnlt'
    · rw [hTn']
      rfl

/-- C2: from the empty state an allocator hands out all `numSubnets`
subnets, pairwise distinct, before the next call fails with the pool-full
error and resets the cursor to 0; releasing any one of the returned subnets
lets the next call succeed again with a subnet of the pool. -/
theorem c2_exhaustion (network : String) (hostBits : Nat) (sna0 : SubnetAllocator)
    (h : NewSubnetAllocator network hostBits [] = Except.ok sna0) :
    (allocRun sna0 (numSubnets sna0)).1.length = numSubnets sna0 ∧
    (allocRun sna0 (numSubnets sna0)).1.Pairwise (fun S1 S2 => S1 ≠ S2) ∧
    (GetNetwork (allocRun sna0 (numSubnets sna0)).2).1 =
      Except.error "No subnets available." ∧
    (GetNetwork (allocRun sna0 (numSubnets sna0)).2).2.next = 0 ∧
    (∀ S ∈ (allocRun sna0 (numSubnets sna0)).1,
      ∃ sna1, ReleaseNetwork (GetNetwork (allocRun sna0 (numSubnets sna0)).2).2 S =
          Except.ok sna1 ∧
        ∃ T sna2, GetNetwork sna1 = (Except.ok T, sna2) ∧
          ipnetContains sna0.network T.ip = true ∧
          T.maskSize = numSubnetBits sna0 + sna0.network.maskSize) := by
  obtain ⟨hwf, hnext, hmap⟩ := NewSubnetAllocator_WF network hostBits [] sna0 h
  have hmap0 : sna0.allocMap = [] := hmap
  have hrun := allocRun_empty sna0 hwf hmap0 hnext (numSubnets sna0) (Nat.le_refl _)
  rw [hrun]
  dsimp only
  refine ⟨by simp, ?_, ?_, ?_, ?_⟩
  · rw [List.pairwise_map]
    refine List.Pairwise.imp_of_mem ?_ (List.pairwise_lt_range _)
    intro a b ha hb hlt heq
    have haN := List.mem_range.mp ha
    have hbN := List.mem_range.mp hb
    have : a = b := genIpu_inj sna0 hwf haN hbN (congrArg IPNet.ip heq)
    omega
  · rw [GetNetwork_exhausted sna0 hwf]
  · rw [GetNetwork_exhausted sna0 hwf]
  · intro S hS
    rw [GetNetwork_exhausted sna0 hwf]
    dsimp only
    obtain ⟨j, hjr, hjS⟩ := List.mem_map.mp hS
    have hjN : j < numSubnets sna0 := List.mem_range.mp hjr
    have hcont : ipnetContains sna0.network S.ip = true := by
      rw [← hjS]
      exact genIpu_contains sna0 hwf j hjN
    have hget : mapGet (runMap sna0 (numSubnets sna0)) (ipnetString S) = true := by
      rw [← hjS, mapGet_runMap sna0 hwf (Nat.le_refl _) hjN]
      simp [hjN]
    rcases ReleaseNetwork_cases
        { sna0 with allocMap := runMap sna0 (numSubnets sna0), next := 0 } S with
      ⟨hcF, _⟩ | ⟨_, hgF, _⟩ | ⟨_, _, hok⟩
    · have hcF' : ipnetContains sna0.network S.ip = false := hcF
      rw [hcont] at hcF'
      cases hcF'
    · have hgF' : mapGet (runMap sna0 (numSubnets sna0)) (ipnetString S) = false := hgF
      cases hget.symm.trans hgF'
    · have hok' : ReleaseNetwork { sna0 with allocMap := runMap sna0 (numSubnets sna0), next := 0 } S = Except.ok { sna0 with allocMap := mapSet (runMap sna0 (numSubnets sna0)) (ipnetString S) false, next := 0 } := hok
      exact ⟨_, hok', release_then_alloc sna0 hwf S j hjN hjS⟩

theorem c2_witness :
    (allocRun (⟨⟨167772160, 30⟩, 1, 0, 4294967295, 0, 0, 0, []⟩ : SubnetAllocator)
        (numSubnets ⟨⟨167772160, 30⟩, 1, 0, 4294967295, 0, 0, 0, []⟩)).1.length =
      numSubnets (⟨⟨167772160, 30⟩, 1, 0, 4294967295, 0, 0, 0, []⟩ : SubnetAllocator) ∧
    (allocRun (⟨⟨167772160, 30⟩, 1, 0, 4294967295, 0, 0, 0, []⟩ : SubnetAllocator)
        (numSubnets ⟨⟨167772160, 30⟩, 1, 0, 4294967295, 0, 0, 0, []⟩)).1.Pairwise
      (fun S1 S2 => S1 ≠ S2) ∧
    (GetNetwork (allocRun (⟨⟨167772160, 30⟩, 1, 0, 4294967295, 0, 0, 0, []⟩ : SubnetAllocator)
        (numSubnets ⟨⟨167772160, 30⟩, 1, 0, 4294967295, 0, 0, 0, []⟩)).2).1 =
      Except.error "No subnets available." ∧
    (GetNetwork (allocRun (⟨⟨167772160, 30⟩, 1, 0, 4294967295, 0, 0, 0, []⟩ : SubnetAllocator)
        (numSubnets ⟨⟨167772160, 30⟩, 1, 0, 4294967295, 0, 0, 0, []⟩)).2).2.next = 0 ∧
    (∀ S ∈ (allocRun (⟨⟨167772160, 30⟩, 1, 0, 4294967295, 0, 0, 0, []⟩ : SubnetAllocator)
        (numSubnets ⟨⟨167772160, 30⟩, 1, 0, 4294967295, 0, 0, 0, []⟩)).1,
      ∃ sna1, ReleaseNetwork (GetNetwork (allocRun
          (⟨⟨167772160, 30⟩, 1, 0, 4294967295, 0, 0, 0, []⟩ : SubnetAllocator)
          (numSubnets ⟨⟨167772160, 30⟩, 1, 0, 4294967295, 0, 0, 0, []⟩)).2).2 S =
          Except.ok sna1 ∧
        ∃ T sna2, GetNetwork sna1 = (Except.ok T, sna2) ∧
          ipnetContains (⟨167772160, 30⟩ : IPNet) T.ip = true ∧
          T.maskSize = numSubnetBits ⟨⟨167772160, 30⟩, 1, 0, 4294967295, 0, 0, 0, []⟩ +
            (⟨167772160, 30⟩ : IPNet).maskSize) :=
  c2_exhaustion "10.0.0.0/30" 1 ⟨⟨167772160, 30⟩, 1, 0, 4294967295, 0, 0, 0, []⟩ (by decide)


/-- Closed form of the candidate address for the pool 10.1.0.0/16 with
hostBits 6: for the first 256 indices the rotation places the index in the
third octet. -/
theorem c1_genIpu (x : Nat) (hx : x < 256) :
    genIpu ⟨⟨167837696, 16⟩, 6, 2, 65535, 8, 192, 0, []⟩ x = 167837696 + x * 256 := by
  have hwf : WF ⟨⟨167837696, 16⟩, 6, 2, 65535, 8, 192, 0, []⟩ := by decide
  rw [genIpu_eq_rot _ hwf (by decide) (by decide) (by decide) (by decide) (by decide) x
    (show x < numSubnets ⟨⟨167837696, 16⟩, 6, 2, 65535, 8, 192, 0, []⟩ by
      show x < 1024
      omega)]
  show 167837696 + x % 2 ^ 8 * 2 ^ (6 + 2) + x / 2 ^ 8 * 2 ^ 6 = 167837696 + x * 256
  have h1 : (2 : Nat) ^ 8 = 256 := by norm_num
  have h3 : (2 : Nat) ^ 6 = 64 := by norm_num
  rw [h1, h3]
  omega

/-- The canonical CIDR string of candidate `x < 256` over 10.1.0.0/16. -/
theorem c1_key (x : Nat) (hx : x < 256) :
    ipnetString (genSubnet ⟨⟨167837696, 16⟩, 6, 2, 65535, 8, 192, 0, []⟩ x) =
      "10.1." ++ decStr x ++ ".0/26" := by
  unfold genSubnet ipnetString
  rw [c1_genIpu x hx]
  have e1 : ((167837696 + x * 256) >>> 24) % 256 = 10 := by
    rw [Nat.shiftRight_eq_div_pow]
    have : (2 : Nat) ^ 24 = 16777216 := by norm_num
    rw [this]
    omega
  have e2 : ((167837696 + x * 256) >>> 16) % 256 = 1 := by
    rw [Nat.shiftRight_eq_div_pow]
    have : (2 : Nat) ^ 16 = 65536 := by norm_num
    rw [this]
    omega
  have e3 : ((167837696 + x * 256) >>> 8) % 256 = x := by
    rw [Nat.shiftRight_eq_div_pow]
    have : (2 : Nat) ^ 8 = 256 := by norm_num
    rw [this]
    omega
  have e4 : (167837696 + x * 256) % 256 = 0 := by omega
  show ipDotted (167837696 + x * 256) ++ "/" ++ decStr 26 = _
  unfold ipDotted
  rw [e1, e2, e3, e4]
  apply String.ext
  simp only [decStr, String.data_append]
  rw [show decDigits 10 = ['1', '0'] from by decide,
    show decDigits 1 = ['1'] from by decide,
    show decDigits 0 = ['0'] from by decide,
    show decDigits 26 = ['2', '6'] from by decide]
  simp

/-- C1: over pool 10.1.0.0/16 with hostBits 6 and no preallocated subnets,
the first 256 allocations are 10.1.0.0/26, 10.1.1.0/26, …, 10.1.255.0/26 in
that order, and no subnet of the form 10.1.x.64/26 is among them. -/
theorem c1_rotation_first256 :
    NewSubnetAllocator "10.1.0.0/16" 6 [] =
      Except.ok ⟨⟨167837696, 16⟩, 6, 2, 65535, 8, 192, 0, []⟩ ∧
    ((allocRun ⟨⟨167837696, 16⟩, 6, 2, 65535, 8, 192, 0, []⟩ 256).1).map ipnetString =
      (List.range 256).map (fun x => "10.1." ++ decStr x ++ ".0/26") ∧
    ∀ x, x < 256 →
      ("10.1." ++ decStr x ++ ".64/26") ∉
        ((allocRun ⟨⟨167837696, 16⟩, 6, 2, 65535, 8, 192, 0, []⟩ 256).1).map ipnetString := by
  have hwf : WF ⟨⟨167837696, 16⟩, 6, 2, 65535, 8, 192, 0, []⟩ := by decide
  have hrun := allocRun_empty ⟨⟨167837696, 16⟩, 6, 2, 65535, 8, 192, 0, []⟩ hwf rfl rfl 256
    (by decide)
  have hlist : (allocRun ⟨⟨167837696, 16⟩, 6, 2, 65535, 8, 192, 0, []⟩ 256).1 =
      (List.range 256).map (genSubnet ⟨⟨167837696, 16⟩, 6, 2, 65535, 8, 192, 0, []⟩) := by
    rw [hrun]
  have hmain : ((allocRun ⟨⟨167837696, 16⟩, 6, 2, 65535, 8, 192, 0, []⟩ 256).1).map ipnetString =
      (List.range 256).map (fun x => "10.1." ++ decStr x ++ ".0/26") := by
    rw [hlist, List.map_map]
    apply List.map_congr_left
    intro a ha
    exact c1_key a (List.mem_range.mp ha)
  refine ⟨by decide, hmain, ?_⟩
  intro x hx hmem
  rw [hmain] at hmem
  obtain ⟨j, hjr, heq⟩ := List.mem_map.mp hmem
  have hdata := congrArg String.data heq
  simp only [String.data_append, decStr] at hdata
  simp only [List.cons_append, List.nil_append, List.append_assoc, List.cons.injEq,
    true_and] at hdata
  obtain ⟨hjx, htail⟩ := append_sep_inj '.' _ _ _ _
    (dot_not_mem_decDigits j) (dot_not_mem_decDigits x) hdata
  simp at htail

theorem c1_witness :
    ("10.1." ++ decStr 3 ++ ".64/26") ∉
      ((allocRun ⟨⟨167837696, 16⟩, 6, 2, 65535, 8, 192, 0, []⟩ 256).1).map ipnetString :=
  c1_rotation_first256.2.2 3 (by decide)

end KOvn
